import Mathlib

/-!
# PersistentJsonEEPROM: a length-framed record log on a serial EEPROM

Shallow embedding of `src/PersistentJsonEEPROM.cpp` / `src/PersistentJsonEEPROM.h`.

Modelling conventions.

* The driver calls `Wire.begin(7, 9)`, the two-pin form that exists only on the 32-bit
  Arduino cores, so `int` and `size_t` are 32 bits wide.  Every expression the source
  evaluates in `int` or `size_t` has operands below `2^16` and at most three summands, so it
  is computed exactly; the only reductions are the conversions back to `uint16_t` /
  `uint8_t`, written `u16` / `u8` at the place where the source converts.
* A `String` is the list of its bytes; `String::charAt` past the end yields `0`.
* The device is reliable: an address holds the last byte written to it.  Every bus
  transaction is logged in `trace` (most recent first), so that "no device access" is a
  statement about the trace.  `Wire.begin`, `delay` and the `Serial` diagnostics have no
  effect on the state modelled here.
* Write transactions that can fail are modelled separately (`Bus`, `appendB`): there the
  status of each write comes from an oracle and the statuses `_writeByte` prints are
  collected.
* A session is a list of calls (`Op`) run from a store; `navigate_to_spec` is the walk as
  the specification words it, over unbounded integers, for comparison with
  `_navigateToMessage`.
-/

namespace PersistentJsonEEPROM

/-- Header constant `PJ_ADDR_USAGE_POINTER`. -/
def PJ_ADDR_USAGE_POINTER : Nat := 0
/-- Header constant `PJ_ADDR_MSG_COUNT_POINTER`. -/
def PJ_ADDR_MSG_COUNT_POINTER : Nat := 2
/-- Header constant `PJ_DATA_START_ADDRESS`. -/
def PJ_DATA_START_ADDRESS : Nat := 4

/-- Conversion to `uint16_t`. -/
def u16 (n : Nat) : Nat := n % 65536
/-- Conversion to `uint8_t`. -/
def u8 (n : Nat) : Nat := n % 256

/-- One bus transaction: a byte read or a byte write at a 16-bit device address. -/
inductive Access where
  | rd (addr : Nat)
  | wr (addr : Nat) (val : Nat)
deriving DecidableEq

/-- The object state (`_eepromSizeBytes`, `_currentUsagePtr`, `_currentMsgCount`) together
with the device it talks to (`mem`) and the log of bus transactions (`trace`). -/
structure Store where
  eepromSizeBytes : Nat
  currentUsagePtr : Nat
  currentMsgCount : Nat
  mem : Nat → Nat
  trace : List Access

/-- The three `uint16_t` members hold 16-bit values. -/
def Store.typed (s : Store) : Prop :=
  s.eepromSizeBytes < 65536 ∧ s.currentUsagePtr < 65536 ∧ s.currentMsgCount < 65536

instance (s : Store) : Decidable s.typed := by
  unfold Store.typed; infer_instance

/-- Constructor `PersistentJsonEEPROM(i2cAddress, eepromSizeBytes)` over a given device. -/
def construct (eepromSizeBytes : Nat) (mem : Nat → Nat) : Store :=
  { eepromSizeBytes := u16 eepromSizeBytes
    currentUsagePtr := PJ_DATA_START_ADDRESS
    currentMsgCount := 0
    mem := mem
    trace := [] }

/-- `_writeByte(uint16_t eeAddress, uint8_t val)`. -/
def _writeByte (s : Store) (eeAddress val : Nat) : Store :=
  { s with
    mem := fun x => if x = u16 eeAddress then u8 val else s.mem x
    trace := Access.wr (u16 eeAddress) (u8 val) :: s.trace }

/-- `_readByte(uint16_t eeAddress)` on a device that answers. -/
def _readByte (s : Store) (eeAddress : Nat) : Nat × Store :=
  (u8 (s.mem (u16 eeAddress)), { s with trace := Access.rd (u16 eeAddress) :: s.trace })

/-- `_writeWord(uint16_t eeAddress, uint16_t val)`: MSB first. -/
def _writeWord (s : Store) (eeAddress val : Nat) : Store :=
  let s1 := _writeByte s (u16 eeAddress) (u16 val >>> 8)
  _writeByte s1 (u16 eeAddress + 1) (u16 val &&& 0xFF)

/-- `_readWord(uint16_t eeAddress)`. -/
def _readWord (s : Store) (eeAddress : Nat) : Nat × Store :=
  let r1 := _readByte s (u16 eeAddress)
  let r2 := _readByte r1.2 (u16 eeAddress + 1)
  (u16 ((r1.1 <<< 8) ||| r2.1), r2.2)

/-- `_updatePersistentPointers()`. -/
def _updatePersistentPointers (s : Store) : Store :=
  let s1 := _writeWord s PJ_ADDR_USAGE_POINTER s.currentUsagePtr
  _writeWord s1 PJ_ADDR_MSG_COUNT_POINTER s1.currentMsgCount

/-- `begin()`. -/
def begin (s : Store) : Bool × Store :=
  let r1 := _readWord s PJ_ADDR_USAGE_POINTER
  let s1 : Store := { r1.2 with currentUsagePtr := r1.1 }
  let r2 := _readWord s1 PJ_ADDR_MSG_COUNT_POINTER
  let s2 : Store := { r2.2 with currentMsgCount := r2.1 }
  let s3 : Store :=
    if s2.currentUsagePtr = 0xFFFF ∨ s2.currentUsagePtr < PJ_DATA_START_ADDRESS
        ∨ s2.currentUsagePtr > s2.eepromSizeBytes then
      { s2 with currentUsagePtr := PJ_DATA_START_ADDRESS }
    else s2
  let s4 : Store := if s3.currentMsgCount = 0xFFFF then { s3 with currentMsgCount := 0 } else s3
  let s5 : Store :=
    if s4.currentUsagePtr = PJ_DATA_START_ADDRESS ∧ s4.currentMsgCount > 0 then
      { s4 with currentMsgCount := 0 }
    else s4
  let s6 : Store :=
    if s5.currentMsgCount = 0 ∧ s5.currentUsagePtr ≠ PJ_DATA_START_ADDRESS then
      { s5 with currentUsagePtr := PJ_DATA_START_ADDRESS }
    else s5
  (true, _updatePersistentPointers s6)

/-- `append(const String& jsonData)`. -/
def append (s : Store) (jsonData : List Nat) : Bool × Store :=
  let jsonLength := u16 jsonData.length
  let requiredSpace := u16 (2 + jsonLength)
  if s.currentUsagePtr + requiredSpace > s.eepromSizeBytes then (false, s)
  else
    let s1 := _writeWord s s.currentUsagePtr jsonLength
    let dataAddress := u16 (s1.currentUsagePtr + 2)
    let s2 := (List.range jsonLength).foldl
      (fun st i => _writeByte st (dataAddress + i) (jsonData.getD i 0)) s1
    let s3 := { s2 with
      currentUsagePtr := u16 (s2.currentUsagePtr + requiredSpace)
      currentMsgCount := u16 (s2.currentMsgCount + 1) }
    (true, _updatePersistentPointers s3)

/-- `data()`. -/
def data (s : Store) : Nat := s.currentMsgCount

/-- `usage()`, with the `float` arithmetic taken as exact rational arithmetic. -/
def usage (s : Store) : ℚ :=
  if s.eepromSizeBytes = 0 then 0
  else ((s.currentUsagePtr : ℚ) / (s.eepromSizeBytes : ℚ)) * 100

/-- The skipping loop of `_navigateToMessage`: `n` iterations from `currentAddress`;
`none` is an early `return false`. -/
def navLoop : Nat → Nat → Store → Option Nat × Store
  | 0, currentAddress, s => (some currentAddress, s)
  | n + 1, currentAddress, s =>
    if currentAddress + 2 > s.currentUsagePtr then (none, s)
    else
      let r := _readWord s currentAddress
      if r.1 = 0xFFFF ∨ r.1 = 0 then (none, r.2)
      else
        let next := u16 (currentAddress + (2 + r.1))
        if next > r.2.currentUsagePtr then (none, r.2)
        else navLoop n next r.2

/-- `_navigateToMessage(messageIndex, messageStartAddress, messageDataLength)`: the two
output parameters are returned as a pair when the function returns `true`. -/
def _navigateToMessage (s : Store) (messageIndex : Nat) : Option (Nat × Nat) × Store :=
  if messageIndex ≥ s.currentMsgCount then (none, s)
  else
    match navLoop messageIndex PJ_DATA_START_ADDRESS s with
    | (none, s1) => (none, s1)
    | (some currentAddress, s1) =>
      if currentAddress + 2 > s1.currentUsagePtr then (none, s1)
      else
        let r := _readWord s1 currentAddress
        if r.1 = 0xFFFF then (none, r.2)
        else if currentAddress + 2 + r.1 > r.2.currentUsagePtr then (none, r.2)
        else (some (currentAddress, r.1), r.2)

/-- `read(uint16_t messageIndex)`: the bytes of the returned `String` (empty on failure). -/
def read (s : Store) (messageIndex : Nat) : List Nat × Store :=
  match _navigateToMessage s messageIndex with
  | (none, s1) => ([], s1)
  | (some (messageStartAddress, messageDataLength), s1) =>
    if messageDataLength = 0 ∨ messageDataLength = 0xFFFF then ([], s1)
    else
      let actualDataStart := u16 (messageStartAddress + 2)
      (List.range messageDataLength).foldl
        (fun (acc : List Nat × Store) i =>
          let r := _readByte acc.2 (actualDataStart + i)
          (acc.1 ++ [r.1], r.2))
        ([], s1)

/-- `Delete(uint16_t messageIndex)`. -/
def Delete (s : Store) (messageIndex : Nat) : Bool × Store :=
  if messageIndex > s.currentMsgCount then (false, s)
  else if messageIndex = 0 then
    (true, _updatePersistentPointers
      { s with currentUsagePtr := PJ_DATA_START_ADDRESS, currentMsgCount := 0 })
  else
    match _navigateToMessage s messageIndex with
    | (none, s1) => (false, s1)
    | (some (messageStartAddress, _), s1) =>
      (true, _updatePersistentPointers
        { s1 with currentUsagePtr := messageStartAddress, currentMsgCount := messageIndex })

/-- `clearAll()`. -/
def clearAll (s : Store) : Bool × Store :=
  (true, _updatePersistentPointers
    { s with currentUsagePtr := PJ_DATA_START_ADDRESS, currentMsgCount := 0 })

/-- A blank device: every cell reads back `0xFF`. -/
def blank : Nat → Nat := fun _ => 0xFF


/-- The word `_readWord` returns at `eeAddress`, as a function of the device content. -/
def rdWord (m : Nat → Nat) (eeAddress : Nat) : Nat :=
  u16 ((u8 (m (u16 (u16 eeAddress))) <<< 8) ||| u8 (m (u16 (u16 eeAddress + 1))))

/-- The `n` bytes the device returns from address `a` on. -/
def bytesAt (m : Nat → Nat) (a n : Nat) : List Nat :=
  (List.range n).map (fun i => u8 (m (a + i)))

/-- `fills m n a u`: `n` records with length fields in `1..65534`, read one after the
other from offset `a`, end exactly at offset `u`. -/
def fills (m : Nat → Nat) : Nat → Nat → Nat → Prop
  | 0, a, u => a = u
  | n + 1, a, u =>
    1 ≤ rdWord m a ∧ rdWord m a ≤ 65534 ∧ fills m n (a + 2 + rdWord m a) u

instance fillsDecidable (m : Nat → Nat) : ∀ n a u, Decidable (fills m n a u)
  | 0, a, u => inferInstanceAs (Decidable (a = u))
  | n + 1, a, u =>
    have := fillsDecidable m n (a + 2 + rdWord m a) u
    inferInstanceAs (Decidable (1 ≤ rdWord m a ∧ rdWord m a ≤ 65534 ∧
      fills m n (a + 2 + rdWord m a) u))

/-- A well-formed store: 16-bit cursors, `4 ≤ usage pointer ≤ capacity`, and the first
`record count` records exactly fill `[4, usage pointer)`. -/
def wellFormed (s : Store) : Prop :=
  s.typed ∧ PJ_DATA_START_ADDRESS ≤ s.currentUsagePtr ∧ s.currentUsagePtr ≤ s.eepromSizeBytes ∧
    fills s.mem s.currentMsgCount PJ_DATA_START_ADDRESS s.currentUsagePtr

instance (s : Store) : Decidable (wellFormed s) := by
  unfold wellFormed; infer_instance

/-- The payloads of `n` consecutive records starting at offset `a`. -/
def recsOf (m : Nat → Nat) : Nat → Nat → List (List Nat)
  | 0, _ => []
  | n + 1, a => bytesAt m (a + 2) (rdWord m a) :: recsOf m n (a + 2 + rdWord m a)

/-- `Holds m a recs u`: the device content `m` holds the records `recs` (non-empty byte
strings shorter than `0xFFFF`), framed back to back from offset `a` up to offset `u`. -/
def Holds (m : Nat → Nat) : Nat → List (List Nat) → Nat → Prop
  | a, [], u => a = u
  | a, r :: rs, u =>
    1 ≤ r.length ∧ r.length ≤ 65534 ∧ u8 (m a) * 256 + u8 (m (a + 1)) = r.length ∧
      bytesAt m (a + 2) r.length = r ∧ Holds m (a + 2 + r.length) rs u

/-- The store `s` represents the log `recs`. -/
def Represents (s : Store) (recs : List (List Nat)) : Prop :=
  s.typed ∧ s.currentMsgCount = recs.length ∧
    Holds s.mem PJ_DATA_START_ADDRESS recs s.currentUsagePtr

/-- The components of a store an operation can observe or change: members and device
content, without the transaction log. -/
def Store.state (s : Store) : Nat × Nat × Nat × (Nat → Nat) :=
  (s.eepromSizeBytes, s.currentUsagePtr, s.currentMsgCount, s.mem)

/-- A payload is a string of bytes. -/
def isBytes (p : List Nat) : Prop := ∀ b ∈ p, b < 256

instance (p : List Nat) : Decidable (isBytes p) := by
  unfold isBytes; infer_instance

/-- Appending the payloads `ps` one after the other: the results and the final store. -/
def appendAll (s : Store) : List (List Nat) → List Bool × Store
  | [] => ([], s)
  | p :: ps =>
    let r := append s p
    let rest := appendAll r.2 ps
    (r.1 :: rest.1, rest.2)

/-- Each payload of `ps` fits at the moment it is appended. -/
def fitsAll (s : Store) : List (List Nat) → Prop
  | [] => True
  | p :: ps =>
    s.currentUsagePtr + 2 + p.length ≤ s.eepromSizeBytes ∧ fitsAll (append s p).2 ps

instance fitsAllDecidable : ∀ (s : Store) (ps : List (List Nat)), Decidable (fitsAll s ps)
  | _, [] => inferInstanceAs (Decidable True)
  | s, p :: ps =>
    have := fitsAllDecidable (append s p).2 ps
    inferInstanceAs (Decidable (s.currentUsagePtr + 2 + p.length ≤ s.eepromSizeBytes ∧
      fitsAll (append s p).2 ps))

/-- The store left by `clearAll` on a blank 32-byte device. -/
def emptyStore32 : Store := (clearAll (construct 32 blank)).2

/-- The two-record store of the scenario: `"ab"` and `"cde"` on a 32-byte device. -/
def twoRecords32 : Store := (append (append emptyStore32 [97, 98]).2 [99, 100, 101]).2

/-- A 32-byte device with exactly one free byte: one record of 25 bytes, usage pointer 31. -/
def oneByteLeft32 : Store := (append emptyStore32 (List.replicate 25 65)).2

/-- A 32-byte device whose metadata claims usage pointer 8 and 65534 records. -/
def staleCount : Nat → Nat :=
  fun x => if x = 0 then 0x00 else if x = 1 then 0x08 else if x = 2 then 0xFF
    else if x = 3 then 0xFE else 0xFF

/-- The sanity checks of `begin` on the two words read from the device, as a function of
the capacity and the two words. -/
def repairCursors (cap up mc : Nat) : Nat × Nat :=
  let up1 := if up = 0xFFFF ∨ up < PJ_DATA_START_ADDRESS ∨ up > cap then PJ_DATA_START_ADDRESS else up
  let mc1 := if mc = 0xFFFF then 0 else mc
  let mc2 := if up1 = PJ_DATA_START_ADDRESS ∧ mc1 > 0 then 0 else mc1
  let up2 := if mc2 = 0 ∧ up1 ≠ PJ_DATA_START_ADDRESS then PJ_DATA_START_ADDRESS else up1
  (up2, mc2)

/-- Device bytes 0..3 hold the two cursors of the store, big-endian. -/
def metaSynced (s : Store) : Prop :=
  s.mem 0 = s.currentUsagePtr / 256 ∧ s.mem 1 = s.currentUsagePtr % 256 ∧
    s.mem 2 = s.currentMsgCount / 256 ∧ s.mem 3 = s.currentMsgCount % 256

instance (s : Store) : Decidable (metaSynced s) := by
  unfold metaSynced; infer_instance

/-- One call of the public interface. -/
inductive Op where
  | append (p : List Nat)
  | Delete (i : Nat)
  | clearAll
  | read (i : Nat)
deriving DecidableEq

/-- The store after one call (its result is dropped). -/
def step (s : Store) : Op → Store
  | Op.append p => (append s p).2
  | Op.Delete i => (Delete s i).2
  | Op.clearAll => (clearAll s).2
  | Op.read i => (read s i).2

/-- The store after a sequence of calls. -/
def run (s : Store) : List Op → Store
  | [] => s
  | o :: os => run (step s o) os

/-- An `append` is admissible when its payload is a non-empty byte string that fits; every
other call is admissible. -/
def admissible (s : Store) : Op → Prop
  | Op.append p =>
    p ≠ [] ∧ isBytes p ∧ s.currentUsagePtr + 2 + p.length ≤ s.eepromSizeBytes
  | _ => True

instance (s : Store) (o : Op) : Decidable (admissible s o) := by
  cases o <;> unfold admissible <;> infer_instance

/-- Every call of the sequence is admissible at the moment it is made. -/
def fittingOps (s : Store) : List Op → Prop
  | [] => True
  | o :: os => admissible s o ∧ fittingOps (step s o) os

instance fittingOpsDecidable : ∀ (s : Store) (os : List Op), Decidable (fittingOps s os)
  | _, [] => inferInstanceAs (Decidable True)
  | s, o :: os =>
    have := fittingOpsDecidable (step s o) os
    inferInstanceAs (Decidable (admissible s o ∧ fittingOps (step s o) os))

/-- The calls of a session that only stores and truncates: an `append` of a non-empty byte
string that fits, or a `Delete` that returns `true`. -/
def storing (s : Store) : Op → Prop
  | Op.append p =>
    p ≠ [] ∧ isBytes p ∧ s.currentUsagePtr + 2 + p.length ≤ s.eepromSizeBytes
  | Op.Delete i => (Delete s i).1 = true
  | _ => False

instance (s : Store) (o : Op) : Decidable (storing s o) := by
  cases o <;> unfold storing <;> infer_instance

/-- Every call of the sequence is a storing call at the moment it is made. -/
def storingOps (s : Store) : List Op → Prop
  | [] => True
  | o :: os => storing s o ∧ storingOps (step s o) os

instance storingOpsDecidable : ∀ (s : Store) (os : List Op), Decidable (storingOps s os)
  | _, [] => inferInstanceAs (Decidable True)
  | s, o :: os =>
    have := storingOpsDecidable (step s o) os
    inferInstanceAs (Decidable (storing s o ∧ storingOps (step s o) os))

/-- The number of device bytes the framed records take. -/
def framedSize (recs : List (List Nat)) : Nat := (recs.map (fun r => 2 + r.length)).sum

/-- The invariant of a log built through the interface: the store represents `recs`, the
usage pointer is within the capacity, and bytes 0..3 hold the cursors. -/
def LogInv (s : Store) (recs : List (List Nat)) : Prop :=
  Represents s recs ∧ s.currentUsagePtr ≤ s.eepromSizeBytes ∧ metaSynced s

/-- A stored log of 65529 bytes: it fills a 65535-byte device to the last byte. -/
def fullPayload : List Nat := List.replicate 65529 65

/-- The store on a 32-byte device with stale metadata after `begin` and one `append`:
usage pointer 11, record count 65535. -/
def countAtMax : Store := (append (begin (construct 32 staleCount)).2 [97]).2

/-- The statuses `_writeByte` prints for the write transactions `start .. start + n - 1`:
the non-zero ones, most recent first. -/
def failedStatuses (status : Nat → Nat) (start : Nat) : Nat → List Nat
  | 0 => []
  | n + 1 =>
    if u8 (status (start + n)) ≠ 0 then
      u8 (status (start + n)) :: failedStatuses status start n
    else failedStatuses status start n

/-- The length word the specification reads at `offset`. -/
def lengthWord (m : Nat → Nat) (offset : Nat) : Nat :=
  u8 (m offset) * 256 + u8 (m (offset + 1))

/-- The skips of the specification's `navigate_to`, over unbounded integers: `n` times,
read the length word at the current offset, fail on 0 and on `0xFFFF`, advance by
`2 + length`, fail when the advanced offset exceeds the usage pointer. -/
def navigate_to_skips (m : Nat → Nat) (usage_pointer : Nat) : Nat → Nat → Option Nat
  | 0, offset => some offset
  | n + 1, offset =>
    if lengthWord m offset = 0 ∨ lengthWord m offset = 0xFFFF then none
    else if offset + (2 + lengthWord m offset) > usage_pointer then none
    else navigate_to_skips m usage_pointer n (offset + (2 + lengthWord m offset))

/-- The specification's `navigate_to(index)`, over unbounded integers: the index must be
below the record count; after `index` skips from the data region start the length word at
the final offset must not be `0xFFFF` and the record must end within the used region. -/
def navigate_to_spec (m : Nat → Nat) (usage_pointer record_count index : Nat) :
    Option (Nat × Nat) :=
  if index ≥ record_count then none
  else
    match navigate_to_skips m usage_pointer index PJ_DATA_START_ADDRESS with
    | none => none
    | some offset =>
      if lengthWord m offset = 0xFFFF then none
      else if offset + 2 + lengthWord m offset > usage_pointer then none
      else some (offset, lengthWord m offset)

/-- A 32-byte device whose metadata claims usage pointer 32 and two records, and whose first
length field is `0xFFFC`. -/
def wrapLog : Nat → Nat :=
  fun x => if x = 0 then 0x00 else if x = 1 then 0x20 else if x = 2 then 0x00
    else if x = 3 then 0x02 else if x = 4 then 0xFF else if x = 5 then 0xFC else 0xFF

/-- The store `begin` leaves on `wrapLog`. -/
def wrapStore : Store := (begin (construct 32 wrapLog)).2

/-- None of the `n` records read one after the other from offset `a` has a length field
equal to 0 or `0xFFFF`. -/
def noReservedLength (m : Nat → Nat) : Nat → Nat → Prop
  | 0, _ => True
  | n + 1, a =>
    rdWord m a ≠ 0 ∧ rdWord m a ≠ 0xFFFF ∧ noReservedLength m n (a + 2 + rdWord m a)

instance noReservedLengthDecidable (m : Nat → Nat) :
    ∀ n a, Decidable (noReservedLength m n a)
  | 0, _ => inferInstanceAs (Decidable True)
  | n + 1, a =>
    have := noReservedLengthDecidable m n (a + 2 + rdWord m a)
    inferInstanceAs (Decidable (rdWord m a ≠ 0 ∧ rdWord m a ≠ 0xFFFF ∧
      noReservedLength m n (a + 2 + rdWord m a)))

/-! ## Machine arithmetic -/

theorem u16_of_lt {n : Nat} (h : n < 65536) : u16 n = n := Nat.mod_eq_of_lt h

theorem u8_of_lt {n : Nat} (h : n < 256) : u8 n = n := Nat.mod_eq_of_lt h

theorem u8_lt (n : Nat) : u8 n < 256 := Nat.mod_lt _ (by decide)

theorem u16_lt (n : Nat) : u16 n < 65536 := Nat.mod_lt _ (by decide)

theorem shr8 (n : Nat) : n >>> 8 = n / 256 := by
  rw [Nat.shiftRight_eq_div_pow]

theorem and255 (n : Nat) : n &&& 0xFF = n % 256 := by
  exact Nat.and_pow_two_sub_one_eq_mod n 8

theorem shl8_or {a b : Nat} (hb : b < 256) : (a <<< 8) ||| b = a * 256 + b := by
  have h := Nat.mul_add_lt_is_or (show b < 2 ^ 8 from hb) a
  rw [Nat.shiftLeft_eq, Nat.mul_comm a, ← h]

theorem rdWord_eq (m : Nat → Nat) {a : Nat} (h : a + 1 < 65536) :
    rdWord m a = u8 (m a) * 256 + u8 (m (a + 1)) := by
  unfold rdWord
  rw [u16_of_lt (by omega : a < 65536), u16_of_lt (by omega : a < 65536), u16_of_lt h,
    shl8_or (u8_lt _)]
  apply u16_of_lt
  have h1 := u8_lt (m a)
  have h2 := u8_lt (m (a + 1))
  omega

theorem _readWord_fst (s : Store) (a : Nat) : (_readWord s a).1 = rdWord s.mem a := rfl

theorem _readWord_snd (s : Store) (a : Nat) :
    (_readWord s a).2 = { s with trace := (_readWord s a).2.trace } := rfl

/-! ## Effect of the device primitives -/

@[simp]
theorem _writeByte_eepromSizeBytes (s : Store) (a v : Nat) :
    (_writeByte s a v).eepromSizeBytes = s.eepromSizeBytes := rfl

@[simp]
theorem _writeByte_currentUsagePtr (s : Store) (a v : Nat) :
    (_writeByte s a v).currentUsagePtr = s.currentUsagePtr := rfl

@[simp]
theorem _writeByte_currentMsgCount (s : Store) (a v : Nat) :
    (_writeByte s a v).currentMsgCount = s.currentMsgCount := rfl

theorem _writeByte_mem (s : Store) (a v : Nat) :
    (_writeByte s a v).mem = fun x => if x = u16 a then u8 v else s.mem x := rfl

@[simp]
theorem _writeWord_eepromSizeBytes (s : Store) (a v : Nat) :
    (_writeWord s a v).eepromSizeBytes = s.eepromSizeBytes := rfl

@[simp]
theorem _writeWord_currentUsagePtr (s : Store) (a v : Nat) :
    (_writeWord s a v).currentUsagePtr = s.currentUsagePtr := rfl

@[simp]
theorem _writeWord_currentMsgCount (s : Store) (a v : Nat) :
    (_writeWord s a v).currentMsgCount = s.currentMsgCount := rfl

theorem _writeWord_mem (s : Store) {a v : Nat} (ha : a + 1 < 65536) (hv : v < 65536) :
    (_writeWord s a v).mem =
      fun x => if x = a + 1 then v % 256 else if x = a then v / 256 else s.mem x := by
  have hd : v / 256 < 256 := by omega
  funext x
  simp only [_writeWord, _writeByte_mem, shr8, and255, u16_of_lt hv, u16_of_lt ha,
    u16_of_lt (by omega : a < 65536), u8_of_lt hd, u8_of_lt (Nat.mod_lt v (by decide))]

@[simp]
theorem _updatePersistentPointers_eepromSizeBytes (s : Store) :
    (_updatePersistentPointers s).eepromSizeBytes = s.eepromSizeBytes := rfl

@[simp]
theorem _updatePersistentPointers_currentUsagePtr (s : Store) :
    (_updatePersistentPointers s).currentUsagePtr = s.currentUsagePtr := rfl

@[simp]
theorem _updatePersistentPointers_currentMsgCount (s : Store) :
    (_updatePersistentPointers s).currentMsgCount = s.currentMsgCount := rfl

/-- Persisting the cursors rewrites bytes 0..3 big-endian and nothing else. -/
theorem _updatePersistentPointers_mem (s : Store) (hu : s.currentUsagePtr < 65536)
    (hc : s.currentMsgCount < 65536) :
    (_updatePersistentPointers s).mem =
      fun x => if x = 3 then s.currentMsgCount % 256 else if x = 2 then s.currentMsgCount / 256
        else if x = 1 then s.currentUsagePtr % 256 else if x = 0 then s.currentUsagePtr / 256
        else s.mem x := by
  unfold _updatePersistentPointers
  simp only [PJ_ADDR_USAGE_POINTER, PJ_ADDR_MSG_COUNT_POINTER, _writeWord_currentMsgCount]
  rw [_writeWord_mem _ (by decide) hc, _writeWord_mem _ (by decide) hu]

theorem _updatePersistentPointers_mem_of_ge (s : Store) (hu : s.currentUsagePtr < 65536)
    (hc : s.currentMsgCount < 65536) {x : Nat} (hx : 4 ≤ x) :
    (_updatePersistentPointers s).mem x = s.mem x := by
  rw [_updatePersistentPointers_mem s hu hc]
  have h3 : x ≠ 3 := by omega
  have h2 : x ≠ 2 := by omega
  have h1 : x ≠ 1 := by omega
  have h0 : x ≠ 0 := by omega
  simp only [h3, h2, h1, h0, if_false]

/-! ## The payload loop of `append` -/

theorem writeLoop_succ (s : Store) (d : Nat) (p : List Nat) (n : Nat) :
    (List.range (n + 1)).foldl (fun st i => _writeByte st (d + i) (p.getD i 0)) s =
      _writeByte ((List.range n).foldl (fun st i => _writeByte st (d + i) (p.getD i 0)) s)
        (d + n) (p.getD n 0) := by
  rw [List.range_succ, List.foldl_append]
  rfl

theorem writeLoop_fields (s : Store) (d : Nat) (p : List Nat) (n : Nat) :
    ((List.range n).foldl (fun st i => _writeByte st (d + i) (p.getD i 0)) s).eepromSizeBytes
        = s.eepromSizeBytes ∧
      ((List.range n).foldl (fun st i => _writeByte st (d + i) (p.getD i 0)) s).currentUsagePtr
        = s.currentUsagePtr ∧
      ((List.range n).foldl (fun st i => _writeByte st (d + i) (p.getD i 0)) s).currentMsgCount
        = s.currentMsgCount := by
  induction n with
  | zero => exact ⟨rfl, rfl, rfl⟩
  | succ n ih =>
    rw [writeLoop_succ]
    simpa using ih

/-- The payload loop stores byte `i` of the payload at `d + i` and nothing else. -/
theorem writeLoop_mem (s : Store) (d : Nat) (p : List Nat) (n : Nat) (hd : d + n ≤ 65536)
    (x : Nat) :
    ((List.range n).foldl (fun st i => _writeByte st (d + i) (p.getD i 0)) s).mem x =
      if d ≤ x ∧ x < d + n then u8 (p.getD (x - d) 0) else s.mem x := by
  induction n with
  | zero =>
    have : ¬ (d ≤ x ∧ x < d + 0) := by omega
    simp only [this, if_false]
    rfl
  | succ n ih =>
    rw [writeLoop_succ, _writeByte_mem, u16_of_lt (by omega : d + n < 65536)]
    simp only []
    rw [ih (by omega)]
    by_cases hx : x = d + n
    · subst hx
      have h1 : d ≤ d + n ∧ d + n < d + (n + 1) := by omega
      simp only [h1, and_self, if_true, Nat.add_sub_cancel_left]
    · by_cases h2 : d ≤ x ∧ x < d + n
      · have h3 : d ≤ x ∧ x < d + (n + 1) := by omega
        simp only [hx, h2, h3, and_self, if_true, if_false]
      · have h3 : ¬ (d ≤ x ∧ x < d + (n + 1)) := by omega
        simp only [hx, h2, h3, if_false]

/-! ## `append` -/

/-- What a successful `append` of a payload shorter than 65534 bytes does. -/
theorem append_ok (s : Store) (p : List Nat) (ht : s.typed)
    (hfit : s.currentUsagePtr + 2 + p.length ≤ s.eepromSizeBytes) :
    (append s p).1 = true ∧
      (append s p).2.eepromSizeBytes = s.eepromSizeBytes ∧
      (append s p).2.currentUsagePtr = s.currentUsagePtr + 2 + p.length ∧
      (append s p).2.currentMsgCount = u16 (s.currentMsgCount + 1) ∧
      ∀ x, 4 ≤ x → (append s p).2.mem x =
        if s.currentUsagePtr + 2 ≤ x ∧ x < s.currentUsagePtr + 2 + p.length then
          u8 (p.getD (x - (s.currentUsagePtr + 2)) 0)
        else if x = s.currentUsagePtr + 1 then p.length % 256
        else if x = s.currentUsagePtr then p.length / 256
        else s.mem x := by
  obtain ⟨hcap, hu, hc⟩ := ht
  have hlen : u16 p.length = p.length := u16_of_lt (by omega)
  have hreq : u16 (2 + p.length) = 2 + p.length := u16_of_lt (by omega)
  have hcond : ¬ (s.currentUsagePtr + (2 + p.length) > s.eepromSizeBytes) := by omega
  have hnew : u16 (s.currentUsagePtr + (2 + p.length)) = s.currentUsagePtr + 2 + p.length := by
    rw [u16_of_lt (by omega)]; omega
  have hda : u16 (s.currentUsagePtr + 2) = s.currentUsagePtr + 2 := u16_of_lt (by omega)
  unfold append
  simp only [hlen, hreq, hcond, if_false, _writeWord_currentUsagePtr, hda,
    _updatePersistentPointers_eepromSizeBytes, _updatePersistentPointers_currentUsagePtr,
    _updatePersistentPointers_currentMsgCount]
  have hf := writeLoop_fields (_writeWord s s.currentUsagePtr p.length)
    (s.currentUsagePtr + 2) p p.length
  simp only [_writeWord_eepromSizeBytes, _writeWord_currentUsagePtr,
    _writeWord_currentMsgCount] at hf
  obtain ⟨hf1, hf2, hf3⟩ := hf
  refine ⟨trivial, hf1, by rw [hf2, hnew], by rw [hf3], ?_⟩
  intro x hx
  rw [_updatePersistentPointers_mem_of_ge _ (u16_lt _) (u16_lt _) hx]
  simp only []
  rw [writeLoop_mem _ _ _ _ (by omega), _writeWord_mem _ (by omega) (by omega)]

/-- `append` refuses a payload shorter than 65534 bytes that does not fit, and leaves the
store as it was. -/
theorem append_reject (s : Store) (p : List Nat)
    (hlen : p.length ≤ 65533)
    (hfit : s.currentUsagePtr + 2 + p.length > s.eepromSizeBytes) : append s p = (false, s) := by
  have h1 : u16 p.length = p.length := u16_of_lt (by omega)
  have h2 : u16 (2 + p.length) = 2 + p.length := u16_of_lt (by omega)
  have hcond : s.currentUsagePtr + (2 + p.length) > s.eepromSizeBytes := by omega
  simp only [append, h1, h2, hcond, if_true]

/-- A successful `append`, whatever the payload, bumps the record count modulo `2^16` and
does not move the usage pointer backwards. -/
theorem append_cursors (s : Store) (p : List Nat) (ht : s.typed) (h : (append s p).1 = true) :
    (append s p).2.currentMsgCount = u16 (s.currentMsgCount + 1) ∧
      s.currentUsagePtr ≤ (append s p).2.currentUsagePtr := by
  obtain ⟨hcap, hu, hc⟩ := ht
  unfold append at h ⊢
  by_cases hcond : s.currentUsagePtr + u16 (2 + u16 p.length) > s.eepromSizeBytes
  · simp [hcond] at h
  · simp only [hcond, if_false, _updatePersistentPointers_currentUsagePtr,
      _updatePersistentPointers_currentMsgCount, _writeWord_currentUsagePtr]
    have hf := writeLoop_fields (_writeWord s s.currentUsagePtr (u16 p.length))
      (u16 (s.currentUsagePtr + 2)) p (u16 p.length)
    simp only [_writeWord_currentUsagePtr, _writeWord_currentMsgCount] at hf
    obtain ⟨-, hf2, hf3⟩ := hf
    rw [hf2, hf3]
    refine ⟨rfl, ?_⟩
    rw [u16_of_lt (by omega)]
    omega

theorem _writeByte_trace_length (s : Store) (a v : Nat) :
    (_writeByte s a v).trace.length = s.trace.length + 1 := rfl

theorem _writeWord_trace_length (s : Store) (a v : Nat) :
    (_writeWord s a v).trace.length = s.trace.length + 2 := rfl

theorem _updatePersistentPointers_trace_length (s : Store) :
    (_updatePersistentPointers s).trace.length = s.trace.length + 4 := rfl

theorem writeLoop_trace_length (s : Store) (d : Nat) (p : List Nat) (n : Nat) :
    ((List.range n).foldl (fun st i => _writeByte st (d + i) (p.getD i 0)) s).trace.length
      = s.trace.length + n := by
  induction n with
  | zero => rfl
  | succ n ih =>
    rw [writeLoop_succ, _writeByte_trace_length, ih]
    omega

/-- An accepted `append` issues two byte writes for the length word, one per payload byte
counted by the 16-bit `jsonLength`, and four for the cursors. -/
theorem append_trace_length (s : Store) (p : List Nat) (h : (append s p).1 = true) :
    (append s p).2.trace.length = s.trace.length + (2 + u16 p.length + 4) := by
  unfold append at h ⊢
  by_cases hcond : s.currentUsagePtr + u16 (2 + u16 p.length) > s.eepromSizeBytes
  · simp [hcond] at h
  · simp only [hcond, if_false]
    rw [_updatePersistentPointers_trace_length]
    simp only []
    rw [writeLoop_trace_length, _writeWord_trace_length]
    omega

/-- With a payload of exactly 65534 bytes the 16-bit `requiredSpace` is 0 and the capacity
test of `append` passes in every store whose usage pointer is within the capacity. -/
theorem append_wrap (s : Store) (p : List Nat) (hl : p.length = 65534)
    (hle : s.currentUsagePtr ≤ s.eepromSizeBytes) : (append s p).1 = true := by
  have h0 : u16 (2 + u16 65534) = 0 := by decide
  have hcond : ¬ (s.currentUsagePtr + 0 > s.eepromSizeBytes) := by omega
  simp only [append, hl, h0, hcond, if_false]

/-! ## Framed records on the device -/

theorem Holds_le {m : Nat → Nat} : ∀ {recs : List (List Nat)} {a u : Nat},
    Holds m a recs u → a ≤ u
  | [], _, _, h => Nat.le_of_eq h
  | _ :: _, _, _, ⟨_, _, _, _, h⟩ => by
    have := Holds_le h
    omega

/-- Every record takes at least three bytes. -/
theorem Holds_size {m : Nat → Nat} : ∀ {recs : List (List Nat)} {a u : Nat},
    Holds m a recs u → a + 3 * recs.length ≤ u
  | [], _, _, h => by
    have : _ = _ := h
    simp only [List.length_nil]
    omega
  | _ :: _, _, _, ⟨h1, _, _, _, h⟩ => by
    have := Holds_size h
    simp only [List.length_cons]
    omega

theorem bytesAt_congr {m m' : Nat → Nat} {a n : Nat}
    (h : ∀ i, i < n → m (a + i) = m' (a + i)) : bytesAt m a n = bytesAt m' a n := by
  unfold bytesAt
  apply List.map_congr_left
  intro i hi
  rw [h i (List.mem_range.mp hi)]

/-- `Holds` only looks at the bytes between its two offsets. -/
theorem Holds_congr {m m' : Nat → Nat} : ∀ {recs : List (List Nat)} {a u : Nat},
    (∀ x, a ≤ x → x < u → m x = m' x) → Holds m a recs u → Holds m' a recs u
  | [], _, _, _, h => h
  | r :: rs, a, u, hm, ⟨h1, h2, h3, h4, h⟩ => by
    have hle := Holds_le h
    refine ⟨h1, h2, ?_, ?_, Holds_congr (fun x hx hxu => hm x (by omega) hxu) h⟩
    · rw [← hm a (by omega) (by omega), ← hm (a + 1) (by omega) (by omega)]
      exact h3
    · rw [← bytesAt_congr (fun i hi => hm (a + 2 + i) (by omega) (by omega))]
      exact h4

theorem Holds_append {m : Nat → Nat} : ∀ {xs ys : List (List Nat)} {a u : Nat},
    Holds m a (xs ++ ys) u ↔ ∃ b, Holds m a xs b ∧ Holds m b ys u
  | [], ys, a, u => by
    constructor
    · intro h
      exact ⟨a, rfl, h⟩
    · rintro ⟨b, hb, h⟩
      have hb' : a = b := hb
      subst hb'
      exact h
  | x :: xs, ys, a, u => by
    constructor
    · rintro ⟨h1, h2, h3, h4, h⟩
      obtain ⟨b, hb, hy⟩ := Holds_append.mp h
      exact ⟨b, ⟨h1, h2, h3, h4, hb⟩, hy⟩
    · rintro ⟨b, ⟨h1, h2, h3, h4, hb⟩, hy⟩
      exact ⟨h1, h2, h3, h4, Holds_append.mpr ⟨b, hb, hy⟩⟩

/-- Splitting a log at index `j`. -/
theorem Holds_split {m : Nat → Nat} {recs : List (List Nat)} {a u j : Nat}
    (h : Holds m a recs u) (hj : j < recs.length) :
    ∃ b, Holds m a (recs.take j) b ∧ Holds m b (recs[j] :: recs.drop (j + 1)) u := by
  have h' : Holds m a (recs.take j ++ recs.drop j) u := by
    rw [List.take_append_drop]; exact h
  obtain ⟨b, hb, hy⟩ := Holds_append.mp h'
  refine ⟨b, hb, ?_⟩
  rw [List.drop_eq_getElem_cons hj] at hy
  exact hy

/-! ## Navigation -/

theorem _readWord_state (s : Store) (a : Nat) : (_readWord s a).2.state = s.state := rfl

/-- Navigation reads the device and changes nothing but the transaction log. -/
theorem navLoop_state : ∀ (n a : Nat) (s : Store), (navLoop n a s).2.state = s.state
  | 0, _, _ => rfl
  | n + 1, a, s => by
    rw [navLoop]
    split
    · rfl
    · dsimp only
      split
      · rfl
      · split
        · rfl
        · rw [navLoop_state n _ _]
          rfl

theorem _navigateToMessage_state (s : Store) (i : Nat) :
    (_navigateToMessage s i).2.state = s.state := by
  unfold _navigateToMessage
  split
  · rfl
  · have hs := navLoop_state i PJ_DATA_START_ADDRESS s
    split
    · rename_i s1 heq
      rw [heq] at hs
      exact hs
    · rename_i a s1 heq
      rw [heq] at hs
      split
      · exact hs
      · dsimp only
        split
        · exact hs
        · split
          · exact hs
          · exact hs

theorem state_eq {s t : Store} (h : s.state = t.state) :
    s.eepromSizeBytes = t.eepromSizeBytes ∧ s.currentUsagePtr = t.currentUsagePtr ∧
      s.currentMsgCount = t.currentMsgCount ∧ s.mem = t.mem := by
  simpa [Store.state] using h

/-- Skipping the records of `pre`, framed from `a` to `b`, ends at `b`. -/
theorem navLoop_skip : ∀ (pre : List (List Nat)) (a b : Nat) (s : Store),
    s.currentUsagePtr < 65536 → Holds s.mem a pre b → b ≤ s.currentUsagePtr →
    (navLoop pre.length a s).1 = some b
  | [], a, b, s, _, h, _ => by
    have hab : a = b := h
    subst hab
    rfl
  | r :: rs, a, b, s, hu, ⟨h1, h2, h3, _, h⟩, hb => by
    have hle := Holds_le h
    have hw : rdWord s.mem a = r.length := by rw [rdWord_eq _ (by omega)]; exact h3
    have hnext : u16 (a + (2 + r.length)) = a + 2 + r.length := by
      rw [u16_of_lt (by omega)]; omega
    have c1 : ¬ (a + 2 > s.currentUsagePtr) := by omega
    have c2 : ¬ (r.length = 65535 ∨ r.length = 0) := by omega
    have c3 : ¬ (a + 2 + r.length > s.currentUsagePtr) := by omega
    simp only [List.length_cons]
    rw [navLoop]
    simp only [c1, if_false, _readWord_fst, hw, c2, hnext]
    have hst := state_eq (_readWord_state s a)
    rw [hst.2.1]
    simp only [c3, if_false]
    apply navLoop_skip rs
    · rw [hst.2.1]; exact hu
    · rw [hst.2.2.2]; exact h
    · rw [hst.2.1]; exact hb

/-- Navigation to the record that follows `pre` finds its offset and its length. -/
theorem _navigateToMessage_holds (s : Store) (pre : List (List Nat)) (r : List Nat)
    (post : List (List Nat)) (b : Nat) (hu : s.currentUsagePtr < 65536)
    (hc : pre.length < s.currentMsgCount)
    (hpre : Holds s.mem PJ_DATA_START_ADDRESS pre b)
    (hr : Holds s.mem b (r :: post) s.currentUsagePtr) :
    (_navigateToMessage s pre.length).1 = some (b, r.length) := by
  obtain ⟨h1, h2, h3, _, h⟩ := hr
  have hle := Holds_le h
  have hnav := navLoop_skip pre PJ_DATA_START_ADDRESS b s hu hpre (by omega)
  have hst := state_eq (navLoop_state pre.length PJ_DATA_START_ADDRESS s)
  have c0 : ¬ (pre.length ≥ s.currentMsgCount) := by omega
  unfold _navigateToMessage
  simp only [c0, if_false]
  generalize navLoop pre.length PJ_DATA_START_ADDRESS s = res at hnav hst
  obtain ⟨o, s1⟩ := res
  simp only at hnav hst
  subst hnav
  have hw : rdWord s1.mem b = r.length := by
    rw [hst.2.2.2, rdWord_eq _ (by omega)]; exact h3
  have c1 : ¬ (b + 2 > s1.currentUsagePtr) := by rw [hst.2.1]; omega
  have c2 : ¬ (r.length = 65535) := by omega
  have c3 : ¬ (b + 2 + r.length > s1.currentUsagePtr) := by rw [hst.2.1]; omega
  have hst2 := state_eq (_readWord_state s1 b)
  simp only [c1, if_false, _readWord_fst, hw, c2, hst2.2.1, c3]

/-! ## The byte loop of `read` -/

theorem bytesAt_succ (m : Nat → Nat) (a n : Nat) :
    bytesAt m a (n + 1) = bytesAt m a n ++ [u8 (m (a + n))] := by
  unfold bytesAt
  rw [List.range_succ, List.map_append]
  rfl

theorem readLoop (s : Store) (d : Nat) : ∀ (n : Nat), d + n ≤ 65536 →
    (List.range n).foldl
        (fun (acc : List Nat × Store) i =>
          let r := _readByte acc.2 (d + i)
          (acc.1 ++ [r.1], r.2)) ([], s)
      = (bytesAt s.mem d n,
          ((List.range n).foldl
            (fun (acc : List Nat × Store) i =>
              let r := _readByte acc.2 (d + i)
              (acc.1 ++ [r.1], r.2)) ([], s)).2) ∧
    ((List.range n).foldl
        (fun (acc : List Nat × Store) i =>
          let r := _readByte acc.2 (d + i)
          (acc.1 ++ [r.1], r.2)) ([], s)).2.state = s.state
  | 0, _ => ⟨rfl, rfl⟩
  | n + 1, h => by
    obtain ⟨ih1, ih2⟩ := readLoop s d n (by omega)
    rw [List.range_succ, List.foldl_append]
    generalize (List.range n).foldl
        (fun (acc : List Nat × Store) i =>
          let r := _readByte acc.2 (d + i)
          (acc.1 ++ [r.1], r.2)) ([], s) = res at ih1 ih2
    obtain ⟨l, t⟩ := res
    simp only [Prod.mk.injEq, and_true] at ih1
    subst ih1
    have hm : t.mem = s.mem := (state_eq ih2).2.2.2
    simp only [List.foldl_cons, List.foldl_nil, _readByte, bytesAt_succ, hm,
      u16_of_lt (by omega : d + n < 65536), true_and]
    have he : t.eepromSizeBytes = s.eepromSizeBytes ∧ t.currentUsagePtr = s.currentUsagePtr ∧
        t.currentMsgCount = s.currentMsgCount ∧ t.mem = s.mem := state_eq ih2
    simp only [Store.state, he.1, he.2.1, he.2.2.1]

/-- Reading the record that follows `pre` returns its payload. -/
theorem read_holds (s : Store) (pre : List (List Nat)) (r : List Nat)
    (post : List (List Nat)) (b : Nat) (hu : s.currentUsagePtr < 65536)
    (hc : pre.length < s.currentMsgCount)
    (hpre : Holds s.mem PJ_DATA_START_ADDRESS pre b)
    (hr : Holds s.mem b (r :: post) s.currentUsagePtr) :
    (read s pre.length).1 = r := by
  have hnav := _navigateToMessage_holds s pre r post b hu hc hpre hr
  have hst := state_eq (_navigateToMessage_state s pre.length)
  obtain ⟨h1, h2, _, h4, h⟩ := hr
  have hle := Holds_le h
  unfold read
  generalize _navigateToMessage s pre.length = res at hnav hst
  obtain ⟨o, s1⟩ := res
  simp only at hnav hst
  subst hnav
  have c1 : ¬ (r.length = 0 ∨ r.length = 65535) := by omega
  simp only [c1, if_false, u16_of_lt (by omega : b + 2 < 65536)]
  rw [(readLoop s1 (b + 2) r.length (by omega)).1, hst.2.2.2]
  exact h4

/-- Reading a represented log: `read j` is record `j`, and the empty string
beyond the end. -/
theorem read_represents (s : Store) (recs : List (List Nat)) (h : Represents s recs) (j : Nat) :
    (read s j).1 = recs.getD j [] := by
  obtain ⟨ht, hc, hh⟩ := h
  by_cases hj : j < recs.length
  · obtain ⟨b, hb, hr⟩ := Holds_split hh hj
    have hlen : (recs.take j).length = j := by
      rw [List.length_take]; omega
    have := read_holds s (recs.take j) recs[j] (recs.drop (j + 1)) b ht.2.1
      (by rw [hlen, hc]; exact hj) hb hr
    rw [hlen] at this
    rw [this, List.getD_eq_getElem _ _ hj]
  · have hr : read s j = ([], s) := by
      have : j ≥ s.currentMsgCount := by omega
      simp only [read, _navigateToMessage, this, if_true]
    rw [hr, List.getD_eq_default _ _ (by omega)]

/-! ## The operations on a represented log -/

theorem bytesAt_length (m : Nat → Nat) (a n : Nat) : (bytesAt m a n).length = n := by
  simp [bytesAt]

/-- The store left by `clearAll` represents the empty log. -/
theorem clearAll_represents (s : Store) (hcap : s.eepromSizeBytes < 65536) :
    Represents (clearAll s).2 [] :=
  ⟨⟨hcap, show (4 : Nat) < 65536 by decide, show (0 : Nat) < 65536 by decide⟩, rfl, rfl⟩

/-- Appending a non-empty payload that fits extends the represented log by that payload. -/
theorem append_represents (s : Store) (recs : List (List Nat)) (p : List Nat) (h : Represents s recs)
    (hne : p ≠ []) (hb : isBytes p)
    (hfit : s.currentUsagePtr + 2 + p.length ≤ s.eepromSizeBytes) :
    (append s p).1 = true ∧ (append s p).2.eepromSizeBytes = s.eepromSizeBytes ∧
      Represents (append s p).2 (recs ++ [p]) := by
  obtain ⟨ht, hc, hh⟩ := h
  obtain ⟨a1, a2, a3, a4, a5⟩ := append_ok s p ht hfit
  have h4 := Holds_le hh
  have hsz := Holds_size hh
  have hcap : s.eepromSizeBytes < 65536 := ht.1
  have hpos : 1 ≤ p.length := List.length_pos.mpr hne
  unfold PJ_DATA_START_ADDRESS at h4 hsz
  refine ⟨a1, a2, ⟨by rw [a2]; exact hcap, by rw [a3]; omega, by rw [a4]; exact u16_lt _⟩, ?_, ?_⟩
  · rw [a4, u16_of_lt (by omega), hc, List.length_append, List.length_singleton]
  · rw [a3]
    refine Holds_append.mpr ⟨s.currentUsagePtr, Holds_congr ?_ hh, hpos, by omega, ?_, ?_, rfl⟩
    · intro x hx hxu
      unfold PJ_DATA_START_ADDRESS at hx
      rw [a5 x hx]
      have c1 : ¬ (s.currentUsagePtr + 2 ≤ x ∧ x < s.currentUsagePtr + 2 + p.length) := by omega
      have c2 : x ≠ s.currentUsagePtr + 1 := by omega
      have c3 : x ≠ s.currentUsagePtr := by omega
      simp only [c1, c2, c3, if_false]
    · rw [a5 _ h4, a5 _ (by omega : 4 ≤ s.currentUsagePtr + 1)]
      have c1 : ¬ (s.currentUsagePtr + 2 ≤ s.currentUsagePtr ∧
          s.currentUsagePtr < s.currentUsagePtr + 2 + p.length) := by omega
      have c2 : s.currentUsagePtr ≠ s.currentUsagePtr + 1 := by omega
      have c3 : ¬ (s.currentUsagePtr + 2 ≤ s.currentUsagePtr + 1 ∧
          s.currentUsagePtr + 1 < s.currentUsagePtr + 2 + p.length) := by omega
      simp only [c1, c2, c3, if_false, if_true, u8]
      omega
    · apply List.ext_getElem
      · rw [bytesAt_length]
      · intro i h1 h2
        have hmem : p[i] < 256 := hb _ (List.getElem_mem h2)
        have c1 : s.currentUsagePtr + 2 ≤ s.currentUsagePtr + 2 + i ∧
            s.currentUsagePtr + 2 + i < s.currentUsagePtr + 2 + p.length := by omega
        simp only [bytesAt, List.getElem_map, List.getElem_range]
        rw [a5 _ (by omega), if_pos c1, Nat.add_sub_cancel_left, List.getD_eq_getElem _ _ h2,
          u8_of_lt (u8_lt _), u8_of_lt hmem]

/-- Truncating a represented log strictly inside it succeeds and keeps the first `i`
records. -/
theorem Delete_represents (s : Store) (recs : List (List Nat)) (i : Nat) (h : Represents s recs)
    (h0 : 0 < i) (hi : i < recs.length) :
    (Delete s i).1 = true ∧ (Delete s i).2.eepromSizeBytes = s.eepromSizeBytes ∧
      Represents (Delete s i).2 (recs.take i) := by
  obtain ⟨ht, hc, hh⟩ := h
  obtain ⟨b, hb, hr⟩ := Holds_split hh hi
  have hlen : (recs.take i).length = i := by rw [List.length_take]; omega
  have hnav := _navigateToMessage_holds s (recs.take i) recs[i] (recs.drop (i + 1)) b ht.2.1
    (by rw [hlen, hc]; exact hi) hb hr
  rw [hlen] at hnav
  have hst := state_eq (_navigateToMessage_state s i)
  have hbu : b ≤ s.currentUsagePtr := Holds_le hr
  have c1 : ¬ (i > s.currentMsgCount) := by omega
  have c2 : i ≠ 0 := by omega
  unfold Delete
  simp only [c1, c2, if_false]
  generalize _navigateToMessage s i = res at hnav hst
  obtain ⟨o, s1⟩ := res
  simp only at hnav hst
  subst hnav
  simp only [_updatePersistentPointers_eepromSizeBytes, true_and]
  refine ⟨hst.1, ⟨by simpa [hst.1] using ht.1, ?_, ?_⟩, ?_, ?_⟩
  · simp only [_updatePersistentPointers_currentUsagePtr]
    have := ht.2.1
    omega
  · simp only [_updatePersistentPointers_currentMsgCount]
    have := ht.2.2
    omega
  · simp only [_updatePersistentPointers_currentMsgCount, hlen]
  · simp only [_updatePersistentPointers_currentUsagePtr]
    refine Holds_congr ?_ hb
    intro x hx _
    rw [_updatePersistentPointers_mem_of_ge _ (by have := ht.2.1; simp only; omega)
      (by have := ht.2.2; simp only; omega) hx]
    simp only [hst.2.2.2]

/-- A well-formed region holds the records that `recsOf` reads off it. -/
theorem fills_holds {m : Nat → Nat} {u : Nat} (hu : u < 65536) : ∀ (n a : Nat),
    fills m n a u → Holds m a (recsOf m n a) u ∧ (recsOf m n a).length = n
  | 0, _, h => ⟨h, rfl⟩
  | n + 1, a, ⟨h1, h2, h⟩ => by
    obtain ⟨ih1, ih2⟩ := fills_holds hu n _ h
    have hle := Holds_le ih1
    have hw := rdWord_eq m (by omega : a + 1 < 65536)
    refine ⟨⟨?_, ?_, ?_, ?_, ?_⟩, by simp only [recsOf, List.length_cons, ih2]⟩
    · rw [bytesAt_length]; exact h1
    · rw [bytesAt_length]; exact h2
    · rw [bytesAt_length]; exact hw.symm
    · rw [bytesAt_length]
    · rw [bytesAt_length]; exact ih1

theorem wellFormed_represents (s : Store) (h : wellFormed s) :
    Represents s (recsOf s.mem s.currentMsgCount PJ_DATA_START_ADDRESS) := by
  obtain ⟨ht, _, _, hf⟩ := h
  obtain ⟨h1, h2⟩ := fills_holds ht.2.1 _ _ hf
  exact ⟨ht, h2.symm, h1⟩

/-! ## Append and read -/

theorem appendAll_represents : ∀ (ps : List (List Nat)) (s : Store) (recs : List (List Nat)),
    Represents s recs → (∀ p ∈ ps, p ≠ [] ∧ isBytes p) → fitsAll s ps →
    (appendAll s ps).1 = List.replicate ps.length true ∧ Represents (appendAll s ps).2 (recs ++ ps)
  | [], s, recs, h, _, _ => ⟨rfl, by rw [List.append_nil]; exact h⟩
  | p :: ps, s, recs, h, hps, hfit => by
    obtain ⟨hp1, hp2⟩ := hps p (List.mem_cons_self _ _)
    obtain ⟨a1, _, a3⟩ := append_represents s recs p h hp1 hp2 hfit.1
    obtain ⟨ih1, ih2⟩ := appendAll_represents ps (append s p).2 (recs ++ [p]) a3
      (fun q hq => hps q (List.mem_cons_of_mem _ hq)) hfit.2
    refine ⟨?_, ?_⟩
    · simp only [appendAll, a1, ih1, List.length_cons, List.replicate_succ]
    · simp only [appendAll]
      rw [List.append_assoc] at ih2
      exact ih2

/-- C1. Starting from the store left by `clearAll`, for any capacity and any list of
non-empty payloads each of which fits when it is appended: every `append` returns `true`,
`data()` is the number of payloads afterwards, and `read j` returns payload `j`. -/
theorem append_read_roundtrip (s : Store) (ps : List (List Nat))
    (hcap : s.eepromSizeBytes < 65536) (hps : ∀ p ∈ ps, p ≠ [] ∧ isBytes p)
    (hfit : fitsAll (clearAll s).2 ps) :
    (appendAll (clearAll s).2 ps).1 = List.replicate ps.length true ∧
      data (appendAll (clearAll s).2 ps).2 = ps.length ∧
      ∀ (j : Nat) (hj : j < ps.length), (read (appendAll (clearAll s).2 ps).2 j).1 = ps[j] := by
  obtain ⟨h1, h2⟩ := appendAll_represents ps (clearAll s).2 [] (clearAll_represents s hcap) hps hfit
  rw [List.nil_append] at h2
  refine ⟨h1, h2.2.1, ?_⟩
  intro j hj
  rw [read_represents _ _ h2 j, List.getD_eq_getElem _ _ hj]

/-- Witness of `append_read_roundtrip`: `"ab"` then `"cde"` on a 32-byte device. -/
theorem append_read_roundtrip_witness :
    (construct 32 blank).eepromSizeBytes < 65536 ∧
      fitsAll (clearAll (construct 32 blank)).2 [[97, 98], [99, 100, 101]] ∧
      (appendAll (clearAll (construct 32 blank)).2 [[97, 98], [99, 100, 101]]).1
        = [true, true] ∧
      data (appendAll (clearAll (construct 32 blank)).2 [[97, 98], [99, 100, 101]]).2 = 2 ∧
      (read (appendAll (clearAll (construct 32 blank)).2 [[97, 98], [99, 100, 101]]).2 0).1
        = [97, 98] ∧
      (read (appendAll (clearAll (construct 32 blank)).2 [[97, 98], [99, 100, 101]]).2 1).1
        = [99, 100, 101] :=
  have h := append_read_roundtrip (construct 32 blank) [[97, 98], [99, 100, 101]]
    (by decide) (by decide) (by decide)
  ⟨by decide, by decide, h.1, h.2.1, h.2.2 0 (by decide), h.2.2 1 (by decide)⟩

/-- C2 (failing input). On an empty 32-byte device `append ""` succeeds and writes a record
of length 0; the following `append "ab"` returns `true`, but `read 1` returns the empty
string: navigation stops at the zero length field of record 0. -/
theorem read_after_empty_append :
    (append emptyStore32 []).1 = true ∧
      data (append emptyStore32 []).2 = 1 ∧
      (append (append emptyStore32 []).2 [97, 98]).1 = true ∧
      (read (append (append emptyStore32 []).2 [97, 98]).2 1).1 = [] := by
  decide

/-! ## Capacity -/

/-- C3 (failing input). A payload of 65534 bytes does not fit an empty 32-byte device, yet
`append` accepts it: `2 + 65534` wraps to 0 in the 16-bit `requiredSpace`, the capacity
test passes, 65540 byte writes are issued and the record count goes from 0 to 1. -/
theorem append_65534_accepted :
    (List.replicate 65534 65).length ≤ 65534 ∧
      emptyStore32.currentUsagePtr + 2 + (List.replicate 65534 65).length
        > emptyStore32.eepromSizeBytes ∧
      (append emptyStore32 (List.replicate 65534 65)).1 = true ∧
      emptyStore32.currentMsgCount = 0 ∧
      (append emptyStore32 (List.replicate 65534 65)).2.currentMsgCount = 1 ∧
      (append emptyStore32 (List.replicate 65534 65)).2.trace.length
        = emptyStore32.trace.length + 65540 := by
  have hl : (List.replicate 65534 65).length = 65534 := List.length_replicate _ _
  have hs : (append emptyStore32 (List.replicate 65534 65)).1 = true :=
    append_wrap _ _ hl (by decide)
  have hc := (append_cursors emptyStore32 (List.replicate 65534 65) (by decide) hs).1
  have htr := append_trace_length emptyStore32 (List.replicate 65534 65) hs
  rw [hl] at htr
  refine ⟨by rw [hl], by rw [hl]; decide, hs, rfl, ?_, htr⟩
  rw [hc]
  decide

/-- C4. With `4 ≤ usage pointer ≤ capacity`: every payload whose framed size equals the
free space is accepted, and every payload whose framed size is one byte more is refused
with both cursors left as they were. -/
theorem capacity_boundary (s : Store) (ht : s.typed)
    (h4 : PJ_DATA_START_ADDRESS ≤ s.currentUsagePtr)
    (hle : s.currentUsagePtr ≤ s.eepromSizeBytes) :
    (∀ p : List Nat, 2 + p.length = s.eepromSizeBytes - s.currentUsagePtr →
        (append s p).1 = true) ∧
      (∀ q : List Nat, 2 + q.length = s.eepromSizeBytes - s.currentUsagePtr + 1 →
        (append s q).1 = false ∧
          (append s q).2.currentUsagePtr = s.currentUsagePtr ∧
          (append s q).2.currentMsgCount = s.currentMsgCount) := by
  have hcap : s.eepromSizeBytes < 65536 := ht.1
  unfold PJ_DATA_START_ADDRESS at h4
  refine ⟨fun p hp => (append_ok s p ht (by omega)).1, fun q hq => ?_⟩
  have hq2 : append s q = (false, s) := append_reject s q (by omega) (by omega)
  rw [hq2]
  exact ⟨rfl, rfl, rfl⟩

/-- Witness of `capacity_boundary`: 26 and 27 payload bytes on an empty 32-byte device, and
the empty payload on a 32-byte device with one free byte, where nothing fits exactly. -/
theorem capacity_boundary_witness :
    (append emptyStore32 (List.replicate 26 65)).1 = true ∧
      (append emptyStore32 (List.replicate 27 65)).1 = false ∧
      (append emptyStore32 (List.replicate 27 65)).2.currentUsagePtr
        = emptyStore32.currentUsagePtr ∧
      (append emptyStore32 (List.replicate 27 65)).2.currentMsgCount
        = emptyStore32.currentMsgCount ∧
      oneByteLeft32.currentUsagePtr = 31 ∧
      (append oneByteLeft32 []).1 = false ∧
      (append oneByteLeft32 []).2.currentUsagePtr = oneByteLeft32.currentUsagePtr ∧
      (append oneByteLeft32 []).2.currentMsgCount = oneByteLeft32.currentMsgCount :=
  have h := capacity_boundary emptyStore32 (by decide) (by decide) (by decide)
  have k := capacity_boundary oneByteLeft32 (by decide) (by decide) (by decide)
  have hq := h.2 (List.replicate 27 65) (by decide)
  have kq := k.2 [] (by decide)
  ⟨h.1 (List.replicate 26 65) (by decide), hq.1, hq.2.1, hq.2.2, by decide,
    kq.1, kq.2.1, kq.2.2⟩

/-! ## Record count across `append` -/

/-- C5 (as stated, refuted). After `begin` on a device whose metadata claims 65534
records and one `append`, the record count is 65535; the next `append` returns `true` and
the count is 0, not 65536. -/
theorem count_wraps_at_65535 :
    data (append (begin (construct 32 staleCount)).2 [97]).2 = 65535 ∧
      (append (append (begin (construct 32 staleCount)).2 [97]).2 [98]).1 = true ∧
      data (append (append (begin (construct 32 staleCount)).2 [97]).2 [98]).2 = 0 ∧
      data (append (append (begin (construct 32 staleCount)).2 [97]).2 [98]).2
        ≠ data (append (begin (construct 32 staleCount)).2 [97]).2 + 1 := by
  decide

/-- C5 (amended). In every store state (16-bit cursors) whose record count is below 65535,
a successful `append` raises `data()` by exactly 1 and does not lower the usage pointer. -/
theorem append_count (s : Store) (p : List Nat) (ht : s.typed) (hc : data s < 65535)
    (h : (append s p).1 = true) :
    data (append s p).2 = data s + 1 ∧
      s.currentUsagePtr ≤ (append s p).2.currentUsagePtr := by
  obtain ⟨h1, h2⟩ := append_cursors s p ht h
  unfold data at hc ⊢
  rw [h1, u16_of_lt (by omega)]
  exact ⟨rfl, h2⟩

/-- Witness of `append_count` on an empty 32-byte device. -/
theorem append_count_witness :
    data (append emptyStore32 [97, 98]).2 = data emptyStore32 + 1 ∧
      emptyStore32.currentUsagePtr ≤ (append emptyStore32 [97, 98]).2.currentUsagePtr :=
  append_count emptyStore32 [97, 98] (by decide) (by decide) (by decide)

/-! ## Full clear -/

/-- The state `clearAll` and `Delete 0` leave behind. -/
theorem clearAll_state (s : Store) :
    (clearAll s).2.state =
      (s.eepromSizeBytes, 4, 0,
        fun x => if x = 3 then 0 else if x = 2 then 0 else if x = 1 then 4 else if x = 0 then 0
          else s.mem x) := by
  unfold clearAll Store.state
  simp only [_updatePersistentPointers_eepromSizeBytes, _updatePersistentPointers_currentUsagePtr,
    _updatePersistentPointers_currentMsgCount, PJ_DATA_START_ADDRESS]
  rw [_updatePersistentPointers_mem _ (show (4 : Nat) < 65536 by decide)
    (show (0 : Nat) < 65536 by decide)]
  simp

/-- C6. `Delete 0` and `clearAll` both return `true` and leave the same store behind, with
record count 0, usage pointer 4 and device bytes 0..3 equal to `00 04 00 00`; a second
`clearAll` does not change the state (members and device content) any further. -/
theorem full_clear (s : Store) :
    (Delete s 0).1 = true ∧ (clearAll s).1 = true ∧ (Delete s 0).2 = (clearAll s).2 ∧
      (clearAll s).2.currentMsgCount = 0 ∧
      (clearAll s).2.currentUsagePtr = PJ_DATA_START_ADDRESS ∧
      (clearAll s).2.mem 0 = 0x00 ∧ (clearAll s).2.mem 1 = 0x04 ∧
      (clearAll s).2.mem 2 = 0x00 ∧ (clearAll s).2.mem 3 = 0x00 ∧
      (clearAll (clearAll s).2).2.state = (clearAll s).2.state := by
  have hm := clearAll_state s
  have hm2 := clearAll_state (clearAll s).2
  simp only [Store.state, Prod.mk.injEq] at hm
  obtain ⟨h1, h2, h3, h4⟩ := hm
  refine ⟨rfl, rfl, rfl, rfl, rfl, ?_, ?_, ?_, ?_, ?_⟩
  · rw [h4]; rfl
  · rw [h4]; rfl
  · rw [h4]; rfl
  · rw [h4]; rfl
  · rw [hm2]
    simp only [Store.state, Prod.mk.injEq, h1, h2, h3, h4, true_and]
    funext x
    by_cases c3 : x = 3 <;> by_cases c2 : x = 2 <;> by_cases c1 : x = 1 <;>
      by_cases c0 : x = 0 <;> simp [c3, c2, c1, c0]

/-! ## Usage after a full clear -/

/-- C7 (as stated, refuted). On a 32-byte device the usage after `clearAll`, and after
`Delete 0`, is 12.5 per cent, not 0. -/
theorem clear_usage_not_zero :
    0 < (construct 32 blank).eepromSizeBytes ∧
      usage (clearAll (construct 32 blank)).2 = 25 / 2 ∧
      usage (Delete (construct 32 blank) 0).2 = 25 / 2 ∧
      ¬ (usage (clearAll (construct 32 blank)).2 = 0 ∧
          usage (Delete (construct 32 blank) 0).2 = 0) := by
  have h : usage (clearAll (construct 32 blank)).2 = 25 / 2 := by
    simp only [usage, clearAll, construct, u16, _updatePersistentPointers_eepromSizeBytes,
      _updatePersistentPointers_currentUsagePtr, PJ_DATA_START_ADDRESS]
    norm_num
  refine ⟨by decide, h, h, ?_⟩
  rintro ⟨h0, -⟩
  rw [h] at h0
  norm_num at h0

/-- C7 (amended). For every capacity above 0, after `clearAll` or `Delete 0` the usage is
`4 / capacity * 100`, the share of the four metadata bytes, which is positive. -/
theorem usage_after_clear (s : Store) (hcap : 0 < s.eepromSizeBytes) :
    usage (clearAll s).2 = (4 : ℚ) / (s.eepromSizeBytes : ℚ) * 100 ∧
      usage (Delete s 0).2 = (4 : ℚ) / (s.eepromSizeBytes : ℚ) * 100 ∧
      0 < usage (clearAll s).2 := by
  have hne : s.eepromSizeBytes ≠ 0 := by omega
  have h : usage (clearAll s).2 = (4 : ℚ) / (s.eepromSizeBytes : ℚ) * 100 := by
    simp only [usage, clearAll, _updatePersistentPointers_eepromSizeBytes,
      _updatePersistentPointers_currentUsagePtr, PJ_DATA_START_ADDRESS, hne, if_false]
    norm_num
  refine ⟨h, h, ?_⟩
  rw [h]
  have hq : (0 : ℚ) < (s.eepromSizeBytes : ℚ) := by exact_mod_cast hcap
  positivity

/-- Witness of `usage_after_clear` on a 32-byte device. -/
theorem usage_after_clear_witness :
    usage (clearAll (construct 32 blank)).2 =
        (4 : ℚ) / ((construct 32 blank).eepromSizeBytes : ℚ) * 100 ∧
      usage (Delete (construct 32 blank) 0).2 =
        (4 : ℚ) / ((construct 32 blank).eepromSizeBytes : ℚ) * 100 ∧
      0 < usage (clearAll (construct 32 blank)).2 :=
  usage_after_clear (construct 32 blank) (by decide)

/-! ## Truncation -/

/-- `Delete` at the record count itself: navigation refuses the index, nothing changes. -/
theorem Delete_at_count (s : Store) (h : 0 < s.currentMsgCount) :
    Delete s s.currentMsgCount = (false, s) := by
  have c1 : ¬ (s.currentMsgCount > s.currentMsgCount) := by omega
  have c2 : s.currentMsgCount ≠ 0 := by omega
  simp only [Delete, c1, c2, if_false, _navigateToMessage, ge_iff_le, le_refl, if_true]

/-- C8. In a well-formed store, for `0 < i ≤ record count`: after `Delete i`, `data()` is
`i` and every `read j` with `j < i` returns what it returned before. -/
theorem truncate_prefix (s : Store) (i : Nat) (hwf : wellFormed s) (h0 : 0 < i)
    (hi : i ≤ s.currentMsgCount) :
    data (Delete s i).2 = i ∧
      ∀ j, j < i → (read (Delete s i).2 j).1 = (read s j).1 := by
  by_cases hlt : i < s.currentMsgCount
  · have hr := wellFormed_represents s hwf
    have hlen : (recsOf s.mem s.currentMsgCount PJ_DATA_START_ADDRESS).length
        = s.currentMsgCount := hr.2.1.symm
    obtain ⟨_, _, hd⟩ := Delete_represents s _ i hr h0 (by rw [hlen]; exact hlt)
    refine ⟨?_, ?_⟩
    · unfold data
      rw [hd.2.1, List.length_take, hlen]
      omega
    · intro j hj
      rw [read_represents _ _ hd j, read_represents _ _ hr j,
        List.getD_eq_getElem _ _ (by rw [List.length_take, hlen]; omega),
        List.getD_eq_getElem _ _ (by rw [hlen]; omega), List.getElem_take]
  · have hie : i = s.currentMsgCount := by omega
    subst hie
    rw [Delete_at_count s h0]
    exact ⟨rfl, fun _ _ => rfl⟩

/-- Witness of `truncate_prefix`: `Delete 1` on the two-record store. -/
theorem truncate_prefix_witness :
    wellFormed twoRecords32 ∧ 1 ≤ twoRecords32.currentMsgCount ∧
      data (Delete twoRecords32 1).2 = 1 ∧
      (read (Delete twoRecords32 1).2 0).1 = (read twoRecords32 0).1 :=
  have h := truncate_prefix twoRecords32 1 (by decide) (by decide) (by decide)
  ⟨by decide, by decide, h.1, h.2 0 (by decide)⟩

/-- C9 (failing input). One record `"ab"` on a 32-byte device, a well-formed store with
record count 1: `Delete 1` returns `false`. -/
theorem Delete_boundary_rejected :
    wellFormed (append emptyStore32 [97, 98]).2 ∧
      data (append emptyStore32 [97, 98]).2 = 1 ∧
      (Delete (append emptyStore32 [97, 98]).2 1).1 = false ∧
      (Delete (append emptyStore32 [97, 98]).2 1).2.state
        = (append emptyStore32 [97, 98]).2.state := by
  refine ⟨by decide, by decide, by decide, rfl⟩

/-! ## Range errors -/

/-- C10. `read i` with `i ≥ record count` returns the empty string and `Delete k` with
`k > record count` returns `false`; neither touches the device (the transaction log is
unchanged) nor the cursors: the store is left exactly as it was. -/
theorem range_errors (s : Store) (i k : Nat) (hi : s.currentMsgCount ≤ i)
    (hk : s.currentMsgCount < k) :
    (read s i).1 = [] ∧ (read s i).2.trace = s.trace ∧ (read s i).2 = s ∧
      (Delete s k).1 = false ∧ (Delete s k).2.trace = s.trace ∧ (Delete s k).2 = s := by
  have hr : read s i = ([], s) := by
    simp only [read, _navigateToMessage, ge_iff_le, hi, if_true]
  have hd : Delete s k = (false, s) := by
    simp only [Delete, gt_iff_lt, hk, if_true]
  rw [hr, hd]
  exact ⟨rfl, rfl, rfl, rfl, rfl, rfl⟩

/-- Witness of `range_errors`: `read 2` and `Delete 3` on the two-record store. -/
theorem range_errors_witness :
    twoRecords32.currentMsgCount ≤ 2 ∧ twoRecords32.currentMsgCount < 3 ∧
      (read twoRecords32 2).1 = [] ∧ (read twoRecords32 2).2.trace = twoRecords32.trace ∧
      (read twoRecords32 2).2 = twoRecords32 ∧
      (Delete twoRecords32 3).1 = false ∧
      (Delete twoRecords32 3).2.trace = twoRecords32.trace ∧
      (Delete twoRecords32 3).2 = twoRecords32 :=
  have h := range_errors twoRecords32 2 3 (by decide) (by decide)
  ⟨by decide, by decide, h⟩

/-! ## The sanity checks of `begin` -/

theorem _readWord_eepromSizeBytes (s : Store) (a : Nat) :
    (_readWord s a).2.eepromSizeBytes = s.eepromSizeBytes := rfl

theorem _readWord_currentUsagePtr (s : Store) (a : Nat) :
    (_readWord s a).2.currentUsagePtr = s.currentUsagePtr := rfl

theorem _readWord_currentMsgCount (s : Store) (a : Nat) :
    (_readWord s a).2.currentMsgCount = s.currentMsgCount := rfl

theorem _readWord_mem (s : Store) (a : Nat) : (_readWord s a).2.mem = s.mem := rfl

/-- The store `begin` leaves: the repaired cursors, persisted. -/
theorem begin_eq (s : Store) :
    (begin s).2 = _updatePersistentPointers
      { s with
        currentUsagePtr := (repairCursors s.eepromSizeBytes (rdWord s.mem 0) (rdWord s.mem 2)).1
        currentMsgCount := (repairCursors s.eepromSizeBytes (rdWord s.mem 0) (rdWord s.mem 2)).2
        trace := (_readWord (_readWord s 0).2 2).2.trace } := by
  unfold begin repairCursors
  simp only [PJ_ADDR_USAGE_POINTER, PJ_ADDR_MSG_COUNT_POINTER, _readWord_fst,
    _readWord_eepromSizeBytes, _readWord_currentUsagePtr, _readWord_currentMsgCount,
    _readWord_mem]
  split_ifs <;> rfl

theorem rdWord_lt (m : Nat → Nat) (a : Nat) : rdWord m a < 65536 := u16_lt _

theorem repairCursors_lt {cap up mc : Nat} (hup : up < 65536) (hmc : mc < 65536) :
    (repairCursors cap up mc).1 < 65536 ∧ (repairCursors cap up mc).2 < 65536 := by
  unfold repairCursors PJ_DATA_START_ADDRESS
  simp only []
  split_ifs <;> omega

/-- What the sanity checks of `begin` guarantee, and when they keep both words. -/
theorem repairCursors_spec {cap up mc : Nat} (h4 : 4 ≤ cap) :
    4 ≤ (repairCursors cap up mc).1 ∧ (repairCursors cap up mc).1 ≤ cap ∧
      (repairCursors cap up mc).2 ≠ 0xFFFF ∧
      ((repairCursors cap up mc).2 = 0 ↔ (repairCursors cap up mc).1 = 4) ∧
      (4 < up → up ≤ cap → up ≠ 0xFFFF → 0 < mc → mc < 0xFFFF →
        repairCursors cap up mc = (up, mc)) := by
  unfold repairCursors PJ_DATA_START_ADDRESS
  simp only []
  split_ifs <;> simp_all <;> omega

/-- The sanity checks change nothing when applied to their own result. -/
theorem repairCursors_idem (cap up mc : Nat) :
    repairCursors cap (repairCursors cap up mc).1 (repairCursors cap up mc).2
      = repairCursors cap up mc := by
  unfold repairCursors PJ_DATA_START_ADDRESS
  simp only []
  split_ifs <;> simp_all

theorem _updatePersistentPointers_synced (s : Store) (hu : s.currentUsagePtr < 65536)
    (hc : s.currentMsgCount < 65536) : metaSynced (_updatePersistentPointers s) := by
  unfold metaSynced
  rw [_updatePersistentPointers_mem s hu hc]
  simp

theorem synced_rdWord {s : Store} (h : metaSynced s) (hu : s.currentUsagePtr < 65536)
    (hc : s.currentMsgCount < 65536) :
    rdWord s.mem 0 = s.currentUsagePtr ∧ rdWord s.mem 2 = s.currentMsgCount := by
  obtain ⟨h0, h1, h2, h3⟩ := h
  rw [rdWord_eq _ (by decide), rdWord_eq _ (by decide), h0, h1, h2, h3]
  simp only [u8]
  omega

/-- Persisting cursors that the device already holds leaves the device content as it is. -/
theorem _updatePersistentPointers_mem_same (s : Store) (h : metaSynced s)
    (hu : s.currentUsagePtr < 65536) (hc : s.currentMsgCount < 65536) :
    (_updatePersistentPointers s).mem = s.mem := by
  obtain ⟨h0, h1, h2, h3⟩ := h
  rw [_updatePersistentPointers_mem s hu hc]
  funext x
  by_cases c3 : x = 3
  · subst c3; simp [h3]
  by_cases c2 : x = 2
  · subst c2; simp [h2]
  by_cases c1 : x = 1
  · subst c1; simp [h1]
  by_cases c0 : x = 0
  · subst c0; simp [h0]
  simp [c3, c2, c1, c0]

/-! ## Initialisation -/

/-- The cursors `begin` leaves, and that it persists them. -/
theorem begin_cursors (s : Store) :
    (begin s).2.eepromSizeBytes = s.eepromSizeBytes ∧
      (begin s).2.currentUsagePtr
        = (repairCursors s.eepromSizeBytes (rdWord s.mem 0) (rdWord s.mem 2)).1 ∧
      (begin s).2.currentMsgCount
        = (repairCursors s.eepromSizeBytes (rdWord s.mem 0) (rdWord s.mem 2)).2 ∧
      metaSynced (begin s).2 := by
  obtain ⟨h1, h2⟩ := @repairCursors_lt s.eepromSizeBytes _ _ (rdWord_lt s.mem 0)
    (rdWord_lt s.mem 2)
  rw [begin_eq]
  exact ⟨rfl, rfl, rfl, _updatePersistentPointers_synced _ h1 h2⟩

/-- A store whose cursors pass the sanity checks and are already on the device is a fixed
point of `begin`, up to the transaction log. -/
theorem begin_fixed (t : Store) (hs : metaSynced t) (hu : t.currentUsagePtr < 65536)
    (hc : t.currentMsgCount < 65536)
    (hrep : repairCursors t.eepromSizeBytes t.currentUsagePtr t.currentMsgCount
      = (t.currentUsagePtr, t.currentMsgCount)) :
    (begin t).2.state = t.state := by
  obtain ⟨r0, r2⟩ := synced_rdWord hs hu hc
  rw [begin_eq, r0, r2, hrep]
  have hm := _updatePersistentPointers_mem_same
    { t with trace := (_readWord (_readWord t 0).2 2).2.trace } hs hu hc
  simp only [Store.state, _updatePersistentPointers_eepromSizeBytes,
    _updatePersistentPointers_currentUsagePtr, _updatePersistentPointers_currentMsgCount]
  rw [hm]

/-- C11. Calling `begin` a second time, with nothing in between, leaves the usage pointer,
the record count and the device bytes 0..3 (indeed the whole device content) as the first
call left them. -/
theorem begin_idempotent (s : Store) :
    (begin (begin s).2).2.currentUsagePtr = (begin s).2.currentUsagePtr ∧
      (begin (begin s).2).2.currentMsgCount = (begin s).2.currentMsgCount ∧
      (begin (begin s).2).2.mem 0 = (begin s).2.mem 0 ∧
      (begin (begin s).2).2.mem 1 = (begin s).2.mem 1 ∧
      (begin (begin s).2).2.mem 2 = (begin s).2.mem 2 ∧
      (begin (begin s).2).2.mem 3 = (begin s).2.mem 3 ∧
      (begin (begin s).2).2.state = (begin s).2.state := by
  obtain ⟨c1, c2, c3, c4⟩ := begin_cursors s
  obtain ⟨hu, hc⟩ := @repairCursors_lt s.eepromSizeBytes _ _ (rdWord_lt s.mem 0)
    (rdWord_lt s.mem 2)
  rw [← c2] at hu
  rw [← c3] at hc
  have hrep : repairCursors (begin s).2.eepromSizeBytes (begin s).2.currentUsagePtr
      (begin s).2.currentMsgCount = ((begin s).2.currentUsagePtr, (begin s).2.currentMsgCount) := by
    rw [c1, c2, c3, repairCursors_idem]
  have hst := begin_fixed (begin s).2 c4 hu hc hrep
  obtain ⟨_, e2, e3, e4⟩ := state_eq hst
  exact ⟨e2, e3, by rw [e4], by rw [e4], by rw [e4], by rw [e4], hst⟩

/-- C14. For every capacity of at least 4 and every device content, `begin` returns `true`
and leaves `4 ≤ usage pointer ≤ capacity`, a record count other than `0xFFFF`, record
count 0 exactly when the usage pointer is 4, and both cursors stored big-endian in bytes
0..3; stored words with `4 < usage pointer ≤ capacity`, usage pointer not `0xFFFF` and
`0 < record count < 0xFFFF` are kept as read. -/
theorem begin_repairs (s : Store) (h4 : 4 ≤ s.eepromSizeBytes) :
    (begin s).1 = true ∧
      4 ≤ (begin s).2.currentUsagePtr ∧
      (begin s).2.currentUsagePtr ≤ (begin s).2.eepromSizeBytes ∧
      (begin s).2.currentMsgCount ≠ 0xFFFF ∧
      ((begin s).2.currentMsgCount = 0 ↔ (begin s).2.currentUsagePtr = 4) ∧
      metaSynced (begin s).2 ∧
      (4 < rdWord s.mem 0 → rdWord s.mem 0 ≤ s.eepromSizeBytes → rdWord s.mem 0 ≠ 0xFFFF →
        0 < rdWord s.mem 2 → rdWord s.mem 2 < 0xFFFF →
        (begin s).2.currentUsagePtr = rdWord s.mem 0 ∧
          (begin s).2.currentMsgCount = rdWord s.mem 2) := by
  obtain ⟨c1, c2, c3, c4⟩ := begin_cursors s
  obtain ⟨p1, p2, p3, p4, p5⟩ :=
    @repairCursors_spec s.eepromSizeBytes (rdWord s.mem 0) (rdWord s.mem 2) h4
  rw [c1, c2, c3]
  refine ⟨rfl, p1, p2, p3, p4, c4, ?_⟩
  intro a1 a2 a3 a4 a5
  rw [p5 a1 a2 a3 a4 a5]
  exact ⟨rfl, rfl⟩

/-- Witness of `begin_repairs`: stale metadata on a 32-byte device. -/
theorem begin_repairs_witness :
    4 ≤ (construct 32 staleCount).eepromSizeBytes ∧
      (begin (construct 32 staleCount)).1 = true ∧
      (begin (construct 32 staleCount)).2.currentUsagePtr = 8 ∧
      (begin (construct 32 staleCount)).2.currentMsgCount = 65534 ∧
      metaSynced (begin (construct 32 staleCount)).2 :=
  have h := begin_repairs (construct 32 staleCount) (by decide)
  have k := h.2.2.2.2.2.2 (by decide) (by decide) (by decide) (by decide) (by decide)
  ⟨by decide, h.1, k.1, k.2, h.2.2.2.2.2.1⟩

/-! ## Invariant of the log -/

theorem Holds_end {m : Nat → Nat} : ∀ {recs : List (List Nat)} {a u : Nat},
    Holds m a recs u → u = a + framedSize recs
  | [], _, _, h => by
    have : _ = _ := h
    simp only [framedSize, List.map_nil, List.sum_nil]
    omega
  | _ :: _, _, _, ⟨_, _, _, _, h⟩ => by
    have := Holds_end h
    simp only [framedSize, List.map_cons, List.sum_cons] at this ⊢
    omega

/-- The records a device holds fill the region with length fields in `1..65534`. -/
theorem Holds_fills {m : Nat → Nat} {u : Nat} (hu : u < 65536) :
    ∀ {recs : List (List Nat)} {a : Nat}, Holds m a recs u → fills m recs.length a u
  | [], _, h => h
  | r :: rs, a, ⟨h1, h2, h3, _, h⟩ => by
    have hle := Holds_le h
    have hw : rdWord m a = r.length := by rw [rdWord_eq _ (by omega)]; exact h3
    refine ⟨by rw [hw]; exact h1, by rw [hw]; exact h2, ?_⟩
    rw [hw]
    exact Holds_fills hu h

theorem Represents_of_state {s t : Store} {recs : List (List Nat)} (h : t.state = s.state)
    (hr : Represents s recs) : Represents t recs := by
  obtain ⟨e1, e2, e3, e4⟩ := state_eq h
  obtain ⟨⟨t1, t2, t3⟩, hc, hh⟩ := hr
  exact ⟨⟨by rw [e1]; exact t1, by rw [e2]; exact t2, by rw [e3]; exact t3⟩,
    by rw [e3]; exact hc, by rw [e4, e2]; exact hh⟩

theorem LogInv_of_state {s t : Store} {recs : List (List Nat)} (h : t.state = s.state)
    (hi : LogInv s recs) : LogInv t recs := by
  obtain ⟨e1, e2, e3, e4⟩ := state_eq h
  obtain ⟨hr, hle, hs⟩ := hi
  refine ⟨Represents_of_state h hr, by rw [e1, e2]; exact hle, ?_⟩
  unfold metaSynced at hs ⊢
  rw [e2, e3, e4]
  exact hs

theorem readLoop_state (s : Store) (d : Nat) : ∀ (n : Nat),
    ((List.range n).foldl
        (fun (acc : List Nat × Store) i =>
          let r := _readByte acc.2 (d + i)
          (acc.1 ++ [r.1], r.2)) ([], s)).2.state = s.state
  | 0 => rfl
  | n + 1 => by
    have ih := readLoop_state s d n
    rw [List.range_succ, List.foldl_append]
    exact ih

/-- `read` changes nothing but the transaction log. -/
theorem read_state (s : Store) (i : Nat) : (read s i).2.state = s.state := by
  have hst := _navigateToMessage_state s i
  unfold read
  generalize _navigateToMessage s i = res at hst
  obtain ⟨o, s1⟩ := res
  cases o with
  | none => exact hst
  | some al =>
    obtain ⟨a, l⟩ := al
    simp only
    split
    · exact hst
    · rw [readLoop_state]
      exact hst

/-- An accepted `append` ends by persisting the cursors it leaves. -/
theorem append_synced (s : Store) (p : List Nat) (h : (append s p).1 = true) :
    metaSynced (append s p).2 := by
  unfold append at h ⊢
  by_cases hcond : s.currentUsagePtr + u16 (2 + u16 p.length) > s.eepromSizeBytes
  · simp [hcond] at h
  · simp only [hcond, if_false]
    exact _updatePersistentPointers_synced _ (u16_lt _) (u16_lt _)

theorem clearAll_synced (s : Store) : metaSynced (clearAll s).2 :=
  _updatePersistentPointers_synced _ (show (4 : Nat) < 65536 by decide)
    (show (0 : Nat) < 65536 by decide)

/-- The store left by `clearAll` satisfies the invariant when the capacity is at least 4. -/
theorem clearAll_inv (s : Store) (h4 : 4 ≤ s.eepromSizeBytes) (hcap : s.eepromSizeBytes < 65536) :
    LogInv (clearAll s).2 [] :=
  ⟨clearAll_represents s hcap, h4, clearAll_synced s⟩

theorem append_inv (s : Store) (recs : List (List Nat)) (p : List Nat) (h : LogInv s recs)
    (hne : p ≠ []) (hb : isBytes p)
    (hfit : s.currentUsagePtr + 2 + p.length ≤ s.eepromSizeBytes) :
    (append s p).2.eepromSizeBytes = s.eepromSizeBytes ∧ LogInv (append s p).2 (recs ++ [p]) := by
  obtain ⟨hr, hle, hs⟩ := h
  obtain ⟨a1, a2, a3⟩ := append_represents s recs p hr hne hb hfit
  obtain ⟨_, _, b3, _, _⟩ := append_ok s p hr.1 hfit
  exact ⟨a2, a3, by rw [a2, b3]; exact hfit, append_synced s p a1⟩

/-- A successful truncation strictly inside the log keeps the invariant. -/
theorem Delete_inv (s : Store) (recs : List (List Nat)) (i : Nat) (h : LogInv s recs)
    (h0 : 0 < i) (hi : i < recs.length) :
    (Delete s i).1 = true ∧ (Delete s i).2.eepromSizeBytes = s.eepromSizeBytes ∧
      LogInv (Delete s i).2 (recs.take i) := by
  obtain ⟨hr, hle, _⟩ := h
  obtain ⟨a1, a2, a3⟩ := Delete_represents s recs i hr h0 hi
  have hu' := Holds_end a3.2.2
  have hu := Holds_end hr.2.2
  have hsz : framedSize (recs.take i) ≤ framedSize recs := by
    have hsplit : framedSize recs
        = framedSize (recs.take i) + framedSize (recs.drop i) := by
      conv_lhs => rw [← List.take_append_drop i recs]
      simp only [framedSize, List.map_append, List.sum_append]
    omega
  refine ⟨a1, a2, a3, by rw [a2]; omega, ?_⟩
  have hst := state_eq (_navigateToMessage_state s i)
  have ht' := a3.1
  have c1 : ¬ (i > s.currentMsgCount) := by have := hr.2.1; omega
  have c2 : i ≠ 0 := by omega
  have hd : (Delete s i).1 = true := a1
  unfold Delete at hd ht' ⊢
  simp only [c1, c2, if_false] at hd ht' ⊢
  generalize _navigateToMessage s i = res at hd ht' hst ⊢
  obtain ⟨o, s1⟩ := res
  cases o with
  | none => simp at hd
  | some al =>
    obtain ⟨a, l⟩ := al
    simp only at ht' ⊢
    exact _updatePersistentPointers_synced _ ht'.2.1 ht'.2.2

/-- Every admissible call keeps the invariant and the capacity. -/
theorem step_inv (s : Store) (recs : List (List Nat)) (o : Op) (h : LogInv s recs)
    (ha : admissible s o) :
    (step s o).eepromSizeBytes = s.eepromSizeBytes ∧ ∃ recs', LogInv (step s o) recs' := by
  have h4 : 4 ≤ s.eepromSizeBytes := by
    have := Holds_le h.1.2.2
    have := h.2.1
    unfold PJ_DATA_START_ADDRESS at *
    omega
  have hcap : s.eepromSizeBytes < 65536 := h.1.1.1
  cases o with
  | append p =>
    obtain ⟨hne, hb, hfit⟩ := ha
    obtain ⟨a1, a2⟩ := append_inv s recs p h hne hb hfit
    exact ⟨a1, _, a2⟩
  | clearAll => exact ⟨rfl, [], clearAll_inv s h4 hcap⟩
  | read i =>
    have hst := read_state s i
    exact ⟨(state_eq hst).1, recs, LogInv_of_state hst h⟩
  | Delete i =>
    have hc : s.currentMsgCount = recs.length := h.1.2.1
    by_cases hgt : i > s.currentMsgCount
    · have hd : Delete s i = (false, s) := by simp only [Delete, hgt, if_true]
      have e : step s (Op.Delete i) = s := by simp only [step, hd]
      rw [e]
      exact ⟨rfl, recs, h⟩
    · by_cases hz : i = 0
      · subst hz
        exact ⟨rfl, [], clearAll_inv s h4 hcap⟩
      · by_cases heq : i = s.currentMsgCount
        · subst heq
          have e : step s (Op.Delete s.currentMsgCount) = s := by
            simp only [step, Delete_at_count s (by omega)]
          rw [e]
          exact ⟨rfl, recs, h⟩
        · obtain ⟨_, a2, a3⟩ := Delete_inv s recs i h (by omega) (by omega)
          exact ⟨a2, _, a3⟩

theorem run_inv : ∀ (ops : List Op) (s : Store) (recs : List (List Nat)),
    LogInv s recs → fittingOps s ops →
    (run s ops).eepromSizeBytes = s.eepromSizeBytes ∧ ∃ recs', LogInv (run s ops) recs'
  | [], _, recs, h, _ => ⟨rfl, recs, h⟩
  | o :: os, s, recs, h, ⟨ha, hos⟩ => by
    obtain ⟨e, recs', h'⟩ := step_inv s recs o h ha
    obtain ⟨e2, recs2, h2⟩ := run_inv os (step s o) recs' h' hos
    exact ⟨by rw [← e, ← e2]; rfl, recs2, h2⟩

/-- What the invariant says in terms of the device alone. -/
theorem LogInv_wellFormed {s : Store} {recs : List (List Nat)} (h : LogInv s recs) :
    wellFormed s ∧ (s.currentMsgCount = 0 ↔ s.currentUsagePtr = 4) ∧ metaSynced s := by
  obtain ⟨⟨ht, hc, hh⟩, hle, hs⟩ := h
  have h4 := Holds_le hh
  have hsz := Holds_size hh
  have hf := Holds_fills ht.2.1 hh
  rw [← hc] at hf
  refine ⟨⟨ht, h4, hle, hf⟩, ⟨?_, ?_⟩, hs⟩
  · intro h0
    rw [hc] at h0
    have : recs = [] := List.length_eq_zero.mp h0
    subst this
    exact (show PJ_DATA_START_ADDRESS = s.currentUsagePtr from hh).symm
  · intro hu
    unfold PJ_DATA_START_ADDRESS at hsz
    omega

/-! ## Sessions -/

theorem repairCursors_keep {cap up mc : Nat} (h1 : 4 ≤ up) (h2 : up ≤ cap)
    (h3 : up ≠ 0xFFFF) (h4 : mc ≠ 0xFFFF) (h5 : mc = 0 ↔ up = 4) :
    repairCursors cap up mc = (up, mc) := by
  unfold repairCursors PJ_DATA_START_ADDRESS
  simp only []
  split_ifs <;> simp_all
  all_goals omega

theorem construct_mem (c : Nat) (m : Nat → Nat) : (construct c m).mem = m := rfl

theorem storingOps_fitting : ∀ (ops : List Op) (s : Store), storingOps s ops → fittingOps s ops
  | [], _, _ => trivial
  | o :: os, s, ⟨ho, hos⟩ => by
    refine ⟨?_, storingOps_fitting os _ hos⟩
    cases o with
    | append p => exact ho
    | Delete i => trivial
    | clearAll => trivial
    | read i => trivial

/-! ## Restart -/

/-- C12 (as stated, refuted). On a 65535-byte device one record of 65529 bytes moves the
usage pointer to 65535 = `0xFFFF`; `begin` on a fresh store over that device takes the
value for the blank pattern and comes up with usage pointer 4 and record count 0. -/
theorem restart_loses_full_log :
    4 ≤ (clearAll (construct 65535 blank)).2.eepromSizeBytes ∧
      storingOps (clearAll (construct 65535 blank)).2 [Op.append fullPayload] ∧
      (run (clearAll (construct 65535 blank)).2 [Op.append fullPayload]).currentUsagePtr
        = 65535 ∧
      (run (clearAll (construct 65535 blank)).2 [Op.append fullPayload]).currentMsgCount = 1 ∧
      (begin (construct 65535
        (run (clearAll (construct 65535 blank)).2 [Op.append fullPayload]).mem)).2.currentUsagePtr
        = 4 ∧
      (begin (construct 65535
        (run (clearAll (construct 65535 blank)).2 [Op.append fullPayload]).mem)).2.currentMsgCount
        = 0 := by
  have hl : fullPayload.length = 65529 := List.length_replicate _ _
  have hne : fullPayload ≠ [] := by
    intro h
    rw [h] at hl
    exact absurd hl (by decide)
  have hb : isBytes fullPayload := by
    intro b hb
    rw [List.eq_of_mem_replicate hb]
    decide
  have ht : (clearAll (construct 65535 blank)).2.typed := by decide
  have hfit : (clearAll (construct 65535 blank)).2.currentUsagePtr + 2 + fullPayload.length
      ≤ (clearAll (construct 65535 blank)).2.eepromSizeBytes := by
    rw [hl]; decide
  obtain ⟨a1, a2, a3, a4, _⟩ := append_ok _ fullPayload ht hfit
  have hs := append_synced _ fullPayload a1
  have hu : (append (clearAll (construct 65535 blank)).2 fullPayload).2.currentUsagePtr
      = 65535 := by rw [a3, hl]; rfl
  have hc : (append (clearAll (construct 65535 blank)).2 fullPayload).2.currentMsgCount
      = 1 := by rw [a4]; rfl
  obtain ⟨r0, r2⟩ := synced_rdWord hs (by omega) (by omega)
  rw [hu] at r0
  rw [hc] at r2
  obtain ⟨_, b2, b3, _⟩ := begin_cursors (construct 65535
    (append (clearAll (construct 65535 blank)).2 fullPayload).2.mem)
  have hrun : run (clearAll (construct 65535 blank)).2 [Op.append fullPayload]
      = (append (clearAll (construct 65535 blank)).2 fullPayload).2 := by
    rw [run, run, step]
  have hst : storingOps (clearAll (construct 65535 blank)).2 [Op.append fullPayload] :=
    ⟨⟨hne, hb, hfit⟩, trivial⟩
  rw [hrun]
  refine ⟨by decide, hst, hu, hc, ?_, ?_⟩
  · rw [b2, construct_mem, r0, r2]
    decide
  · rw [b3, construct_mem, r0, r2]
    decide

/-- C12 (amended). For every capacity of at least 4, in every state reached from `clearAll`
by appends of non-empty payloads that fit and successful `Delete` calls whose usage pointer
is not `0xFFFF` (always so when the capacity is below 65535), `begin` on a fresh store over
the same device and capacity returns `true` and yields the usage pointer and the record
count of the running store. -/
theorem restart_keeps_cursors (s : Store) (ops : List Op) (h4 : 4 ≤ s.eepromSizeBytes)
    (hcap : s.eepromSizeBytes < 65536) (hops : storingOps (clearAll s).2 ops)
    (hne : (run (clearAll s).2 ops).currentUsagePtr ≠ 0xFFFF) :
    (begin (construct (run (clearAll s).2 ops).eepromSizeBytes
        (run (clearAll s).2 ops).mem)).1 = true ∧
      (begin (construct (run (clearAll s).2 ops).eepromSizeBytes
        (run (clearAll s).2 ops).mem)).2.currentUsagePtr
        = (run (clearAll s).2 ops).currentUsagePtr ∧
      (begin (construct (run (clearAll s).2 ops).eepromSizeBytes
        (run (clearAll s).2 ops).mem)).2.currentMsgCount
        = (run (clearAll s).2 ops).currentMsgCount := by
  obtain ⟨e, recs, hi⟩ := run_inv ops (clearAll s).2 [] (clearAll_inv s h4 hcap)
    (storingOps_fitting ops _ hops)
  generalize run (clearAll s).2 ops = t at e recs hi hne ⊢
  obtain ⟨⟨⟨t1, t2, t3⟩, w2, w3, _⟩, hiff, hs⟩ := LogInv_wellFormed hi
  obtain ⟨r0, r2⟩ := synced_rdWord hs t2 t3
  obtain ⟨_, b2, b3, _⟩ := begin_cursors (construct t.eepromSizeBytes t.mem)
  have hcount : t.currentMsgCount ≠ 0xFFFF := by
    have := Holds_size hi.1.2.2
    have := hi.1.2.1
    unfold PJ_DATA_START_ADDRESS at *
    omega
  have hk := @repairCursors_keep t.eepromSizeBytes t.currentUsagePtr t.currentMsgCount
    w2 w3 hne hcount hiff
  have hc : (construct t.eepromSizeBytes t.mem).eepromSizeBytes = t.eepromSizeBytes :=
    u16_of_lt t1
  have hm : (construct t.eepromSizeBytes t.mem).mem = t.mem := rfl
  rw [hc, hm, r0, r2, hk] at b2 b3
  exact ⟨rfl, b2, b3⟩

/-- Witness of `restart_keeps_cursors`: two appends and a truncation on a 32-byte device. -/
theorem restart_keeps_cursors_witness :
    storingOps (clearAll (construct 32 blank)).2
        [Op.append [97, 98], Op.append [99, 100, 101], Op.Delete 1] ∧
      (begin (construct 32 (run (clearAll (construct 32 blank)).2
        [Op.append [97, 98], Op.append [99, 100, 101], Op.Delete 1]).mem)).2.currentUsagePtr
        = 8 ∧
      (begin (construct 32 (run (clearAll (construct 32 blank)).2
        [Op.append [97, 98], Op.append [99, 100, 101], Op.Delete 1]).mem)).2.currentMsgCount
        = 1 :=
  have h := restart_keeps_cursors (construct 32 blank)
    [Op.append [97, 98], Op.append [99, 100, 101], Op.Delete 1]
    (by decide) (by decide) (by decide) (by decide)
  ⟨by decide, h.2.1, h.2.2⟩

/-! ## Transport errors -/

theorem failedStatuses_add (status : Nat → Nat) (start n : Nat) : ∀ (m : Nat),
    failedStatuses status start (n + m)
      = failedStatuses status (start + n) m ++ failedStatuses status start n
  | 0 => rfl
  | m + 1 => by
    have ih := failedStatuses_add status start n m
    rw [← Nat.add_assoc, failedStatuses, failedStatuses, ih, Nat.add_assoc start n m]
    split <;> rfl

/-- C15. For every capacity of at least 4, every state reached from `clearAll` through
`read`, `clearAll`, `Delete` (any index) and `append` of non-empty payloads that fit has
`4 ≤ usage pointer ≤ capacity`, record count 0 exactly when the usage pointer is 4, the
first `record count` records exactly filling `[4, usage pointer)`, and bytes 0..3 equal to
the big-endian cursors. -/
theorem wellFormed_is_invariant (s : Store) (ops : List Op) (h4 : 4 ≤ s.eepromSizeBytes)
    (hcap : s.eepromSizeBytes < 65536) (hops : fittingOps (clearAll s).2 ops) :
    4 ≤ (run (clearAll s).2 ops).currentUsagePtr ∧
      (run (clearAll s).2 ops).currentUsagePtr ≤ (run (clearAll s).2 ops).eepromSizeBytes ∧
      ((run (clearAll s).2 ops).currentMsgCount = 0 ↔
        (run (clearAll s).2 ops).currentUsagePtr = 4) ∧
      fills (run (clearAll s).2 ops).mem (run (clearAll s).2 ops).currentMsgCount 4
        (run (clearAll s).2 ops).currentUsagePtr ∧
      metaSynced (run (clearAll s).2 ops) ∧
      (run (clearAll s).2 ops).eepromSizeBytes = s.eepromSizeBytes := by
  obtain ⟨e, recs, hi⟩ := run_inv ops (clearAll s).2 [] (clearAll_inv s h4 hcap) hops
  obtain ⟨⟨_, w2, w3, w4⟩, hiff, hs⟩ := LogInv_wellFormed hi
  exact ⟨w2, w3, hiff, w4, hs, e⟩

/-- Witness of `wellFormed_is_invariant`: a mixed session on a 32-byte device. -/
theorem wellFormed_is_invariant_witness :
    fittingOps (clearAll (construct 32 blank)).2
        [Op.append [97, 98], Op.append [99, 100, 101], Op.read 0, Op.Delete 5, Op.Delete 1,
          Op.append [120]] ∧
      4 ≤ (run (clearAll (construct 32 blank)).2
        [Op.append [97, 98], Op.append [99, 100, 101], Op.read 0, Op.Delete 5, Op.Delete 1,
          Op.append [120]]).currentUsagePtr ∧
      metaSynced (run (clearAll (construct 32 blank)).2
        [Op.append [97, 98], Op.append [99, 100, 101], Op.read 0, Op.Delete 5, Op.Delete 1,
          Op.append [120]]) :=
  have h := wellFormed_is_invariant (construct 32 blank)
    [Op.append [97, 98], Op.append [99, 100, 101], Op.read 0, Op.Delete 5, Op.Delete 1,
      Op.append [120]] (by decide) (by decide) (by decide)
  ⟨by decide, h.1, h.2.2.2.2.1⟩

/-! ## Malformed device content -/

/-- C16 (failing input). On `wrapLog`, `begin` accepts usage pointer 32 and record count 2;
`Delete 1` then skips the record at offset 4, whose length field `0xFFFC` makes the 16-bit
`currentAddress` wrap to 2, passes every consistency test, returns `true` and sets the
usage pointer to 2, inside the metadata bytes. -/
theorem Delete_moves_usagePtr_into_metadata :
    4 ≤ wrapStore.eepromSizeBytes ∧ wrapStore.currentUsagePtr = 32 ∧
      wrapStore.currentMsgCount = 2 ∧
      (Delete wrapStore 1).1 = true ∧
      (run wrapStore [Op.Delete 1]).currentUsagePtr = 2 ∧
      ¬ (4 ≤ (run wrapStore [Op.Delete 1]).currentUsagePtr) := by
  decide

/-- When the skips of the specification succeed, the loop of `_navigateToMessage` ends at
the same offset. -/
theorem navLoop_of_skips : ∀ (n a b : Nat) (s : Store), s.currentUsagePtr < 65536 →
    navigate_to_skips s.mem s.currentUsagePtr n a = some b → (navLoop n a s).1 = some b
  | 0, a, b, s, _, h => by
    simp only [navigate_to_skips, Option.some.injEq] at h
    subst h
    rfl
  | n + 1, a, b, s, hu, h => by
    rw [navigate_to_skips] at h
    split at h
    · exact absurd h (by simp)
    · split at h
      · exact absurd h (by simp)
      · rename_i h1 h2
        have hw : rdWord s.mem a = lengthWord s.mem a := rdWord_eq _ (by omega)
        have hnext : u16 (a + (2 + lengthWord s.mem a)) = a + (2 + lengthWord s.mem a) :=
          u16_of_lt (by omega)
        have c1 : ¬ (a + 2 > s.currentUsagePtr) := by omega
        have c2 : ¬ (lengthWord s.mem a = 65535 ∨ lengthWord s.mem a = 0) := by
          intro hc; exact h1 (hc.symm)
        have hst := state_eq (_readWord_state s a)
        rw [navLoop]
        simp only [c1, if_false, _readWord_fst, hw, c2, hnext, hst.2.1, h2]
        apply navLoop_of_skips n _ b
        · rw [hst.2.1]; exact hu
        · rw [hst.2.1, hst.2.2.2]; exact h

/-- One half of the refinement: whenever the specified walk succeeds, `_navigateToMessage`
returns `true` with the same start offset and length. -/
theorem _navigateToMessage_of_spec (s : Store) (i : Nat) (r : Nat × Nat)
    (hu : s.currentUsagePtr < 65536)
    (h : navigate_to_spec s.mem s.currentUsagePtr s.currentMsgCount i = some r) :
    (_navigateToMessage s i).1 = some r := by
  unfold navigate_to_spec at h
  split at h
  · exact absurd h (by simp)
  · rename_i hidx
    split at h
    · exact absurd h (by simp)
    · rename_i b hb
      split at h
      · exact absurd h (by simp)
      · split at h
        · exact absurd h (by simp)
        · rename_i h1 h2
          simp only [Option.some.injEq] at h
          subst h
          have hnav := navLoop_of_skips i PJ_DATA_START_ADDRESS b s hu hb
          have hst := state_eq (navLoop_state i PJ_DATA_START_ADDRESS s)
          unfold _navigateToMessage
          simp only [hidx, if_false]
          generalize navLoop i PJ_DATA_START_ADDRESS s = res at hnav hst
          obtain ⟨o, s1⟩ := res
          simp only at hnav hst
          subst hnav
          have hw : rdWord s1.mem b = lengthWord s.mem b := by
            rw [hst.2.2.2]; exact rdWord_eq _ (by omega)
          have c1 : ¬ (b + 2 > s1.currentUsagePtr) := by rw [hst.2.1]; omega
          have c3 : ¬ (b + 2 + lengthWord s.mem b > s1.currentUsagePtr) := by
            rw [hst.2.1]; omega
          have hst2 := state_eq (_readWord_state s1 b)
          simp only [c1, if_false, _readWord_fst, hw, h1, hst2.2.1, c3]

/-- C17 (failing input). On `wrapLog`, with usage pointer 32 and record count 2,
`_navigateToMessage 1` returns `true` with start offset 2 and length 2, while the walk of
the specification fails: the offset after the first skip is 65538, beyond the usage
pointer. -/
theorem navigate_wraps_where_spec_fails :
    wrapStore.currentUsagePtr ≤ wrapStore.eepromSizeBytes ∧
      (_navigateToMessage wrapStore 1).1 = some (2, 2) ∧
      navigate_to_skips wrapStore.mem wrapStore.currentUsagePtr 1 PJ_DATA_START_ADDRESS = none ∧
      navigate_to_spec wrapStore.mem wrapStore.currentUsagePtr wrapStore.currentMsgCount 1
        = none := by
  decide

/-! ## The effect of `append` on the device -/

/-- C18 (as stated, refuted). With usage pointer 11 and record count 65535 on a 32-byte
device, `append "b"` fits and returns `true`, and the record count afterwards is 0, not
65536. -/
theorem count_not_successor_at_max :
    4 ≤ countAtMax.currentUsagePtr ∧
      countAtMax.currentUsagePtr + 2 + [98].length ≤ countAtMax.eepromSizeBytes ∧
      countAtMax.currentMsgCount = 65535 ∧
      (append countAtMax [98]).1 = true ∧
      (append countAtMax [98]).2.currentMsgCount = 0 ∧
      (append countAtMax [98]).2.currentMsgCount ≠ countAtMax.currentMsgCount + 1 := by
  decide

/-- C18 (amended). In every store state with `4 ≤ usage pointer` and record count below
65535, for every payload `p` with `usage pointer + 2 + len p ≤ capacity`: after `append p`
the device holds the big-endian length of `p` at `[u, u+2)` and the bytes of `p` at
`[u+2, u+2+len p)`, `u` being the old usage pointer; the new cursors are `u + 2 + len p`
and the old record count plus 1, stored big-endian in bytes 0..3; every other device byte
is unchanged. -/
theorem append_frame (s : Store) (p : List Nat) (ht : s.typed)
    (h4 : 4 ≤ s.currentUsagePtr)
    (hfit : s.currentUsagePtr + 2 + p.length ≤ s.eepromSizeBytes) (hb : isBytes p)
    (hc : s.currentMsgCount < 65535) :
    (append s p).1 = true ∧
      (append s p).2.mem s.currentUsagePtr = p.length / 256 ∧
      (append s p).2.mem (s.currentUsagePtr + 1) = p.length % 256 ∧
      (∀ (i : Nat) (hi : i < p.length), (append s p).2.mem (s.currentUsagePtr + 2 + i) = p[i]) ∧
      (append s p).2.currentUsagePtr = s.currentUsagePtr + 2 + p.length ∧
      (append s p).2.currentMsgCount = s.currentMsgCount + 1 ∧
      metaSynced (append s p).2 ∧
      (∀ x, 4 ≤ x → (x < s.currentUsagePtr ∨ s.currentUsagePtr + 2 + p.length ≤ x) →
        (append s p).2.mem x = s.mem x) := by
  obtain ⟨a1, _, a3, a4, a5⟩ := append_ok s p ht hfit
  refine ⟨a1, ?_, ?_, ?_, a3, by rw [a4, u16_of_lt (by omega)], append_synced s p a1, ?_⟩
  · rw [a5 _ h4]
    have c1 : ¬ (s.currentUsagePtr + 2 ≤ s.currentUsagePtr ∧
        s.currentUsagePtr < s.currentUsagePtr + 2 + p.length) := by omega
    have c2 : s.currentUsagePtr ≠ s.currentUsagePtr + 1 := by omega
    simp only [c1, c2, if_false, if_true]
  · rw [a5 _ (by omega)]
    have c1 : ¬ (s.currentUsagePtr + 2 ≤ s.currentUsagePtr + 1 ∧
        s.currentUsagePtr + 1 < s.currentUsagePtr + 2 + p.length) := by omega
    simp only [c1, if_false, if_true]
  · intro i hi
    have c1 : s.currentUsagePtr + 2 ≤ s.currentUsagePtr + 2 + i ∧
        s.currentUsagePtr + 2 + i < s.currentUsagePtr + 2 + p.length := by omega
    rw [a5 _ (by omega), if_pos c1, Nat.add_sub_cancel_left, List.getD_eq_getElem _ _ hi,
      u8_of_lt (hb _ (List.getElem_mem hi))]
  · intro x hx hout
    rw [a5 x hx]
    have c1 : ¬ (s.currentUsagePtr + 2 ≤ x ∧ x < s.currentUsagePtr + 2 + p.length) := by omega
    have c2 : x ≠ s.currentUsagePtr + 1 := by omega
    have c3 : x ≠ s.currentUsagePtr := by omega
    simp only [c1, c2, c3, if_false]

/-- Witness of `append_frame`: `append "cde"` after `"ab"` on a 32-byte device. -/
theorem append_frame_witness :
    (append (append emptyStore32 [97, 98]).2 [99, 100, 101]).1 = true ∧
      (append (append emptyStore32 [97, 98]).2 [99, 100, 101]).2.currentUsagePtr
        = (append emptyStore32 [97, 98]).2.currentUsagePtr + 2 + [99, 100, 101].length ∧
      (append (append emptyStore32 [97, 98]).2 [99, 100, 101]).2.mem 6
        = (append emptyStore32 [97, 98]).2.mem 6 :=
  have h := append_frame (append emptyStore32 [97, 98]).2 [99, 100, 101]
    (by decide) (by decide) (by decide) (by decide) (by decide)
  ⟨h.1, h.2.2.2.2.1, h.2.2.2.2.2.2.2 6 (by decide) (Or.inl (by decide))⟩

/-! ## Reserved length values -/

/-- C19 (failing input). After `clearAll` and `append ""` on a 32-byte device the record
count is 1 and the length field of record 0 is 0. -/
theorem empty_append_stores_reserved_length :
    (run emptyStore32 [Op.append []]).currentMsgCount = 1 ∧
      rdWord (run emptyStore32 [Op.append []]).mem PJ_DATA_START_ADDRESS = 0 ∧
      ¬ noReservedLength (run emptyStore32 [Op.append []]).mem
          (run emptyStore32 [Op.append []]).currentMsgCount PJ_DATA_START_ADDRESS := by
  decide

/-! ## Truncate, then append -/

/-- C20. In a well-formed store, for `0 < i < record count` and a non-empty payload `p`
that fits after the truncation: `Delete i` and then `append p` both return `true`;
afterwards `data()` is `i + 1`, `read i` returns `p`, and `read j` for `j < i` returns what
it returned before the `Delete`. -/
theorem truncate_then_append (s : Store) (i : Nat) (p : List Nat) (hwf : wellFormed s)
    (h0 : 0 < i) (hi : i < s.currentMsgCount) (hne : p ≠ []) (hb : isBytes p)
    (hfit : (Delete s i).2.currentUsagePtr + 2 + p.length ≤ (Delete s i).2.eepromSizeBytes) :
    (Delete s i).1 = true ∧ (append (Delete s i).2 p).1 = true ∧
      data (append (Delete s i).2 p).2 = i + 1 ∧
      (read (append (Delete s i).2 p).2 i).1 = p ∧
      ∀ j, j < i → (read (append (Delete s i).2 p).2 j).1 = (read s j).1 := by
  have hr := wellFormed_represents s hwf
  have hlen : (recsOf s.mem s.currentMsgCount PJ_DATA_START_ADDRESS).length
      = s.currentMsgCount := hr.2.1.symm
  obtain ⟨d1, _, d3⟩ := Delete_represents s _ i hr h0 (by rw [hlen]; exact hi)
  obtain ⟨a1, _, a3⟩ := append_represents _ _ p d3 hne hb hfit
  have htl : (List.take i (recsOf s.mem s.currentMsgCount PJ_DATA_START_ADDRESS)).length = i := by
    rw [List.length_take, hlen]; omega
  refine ⟨d1, a1, ?_, ?_, ?_⟩
  · unfold data
    rw [a3.2.1, List.length_append, htl, List.length_singleton]
  · rw [read_represents _ _ a3 i, List.getD_eq_getElem _ _ (by
      rw [List.length_append, htl, List.length_singleton]; omega)]
    rw [List.getElem_append_right (by rw [htl])]
    simp only [htl, Nat.sub_self, List.getElem_cons_zero]
  · intro j hj
    rw [read_represents _ _ a3 j, read_represents _ _ hr j,
      List.getD_eq_getElem _ _ (by rw [List.length_append, htl, List.length_singleton]; omega),
      List.getD_eq_getElem _ _ (by rw [hlen]; omega),
      List.getElem_append_left (by rw [htl]; exact hj), List.getElem_take]

/-- Witness of `truncate_then_append`: `Delete 1` then `append "x"` on the two-record
store. -/
theorem truncate_then_append_witness :
    wellFormed twoRecords32 ∧
      (Delete twoRecords32 1).1 = true ∧ (append (Delete twoRecords32 1).2 [120]).1 = true ∧
      data (append (Delete twoRecords32 1).2 [120]).2 = 1 + 1 ∧
      (read (append (Delete twoRecords32 1).2 [120]).2 1).1 = [120] ∧
      (read (append (Delete twoRecords32 1).2 [120]).2 0).1 = (read twoRecords32 0).1 :=
  have h := truncate_then_append twoRecords32 1 [120] (by decide) (by decide) (by decide)
    (by decide) (by decide) (by decide)
  ⟨by decide, h.1, h.2.1, h.2.2.1, h.2.2.2.1, h.2.2.2.2 0 (by decide)⟩

end PersistentJsonEEPROM
